import Mathlib

/-!
# Verification of the incremental time-bucketed aggregation engine

This development is a shallow embedding of `solarweb/aggregator.py`:
the abstract class `DataAggregator` (methods `get_last_aggregate_timestamp`,
`get_source_data`, `process_aggregation`, `deadline_expired`) and its four
subclasses `FiveMinuteAggregator`, `HourlyAggregator`, `WeeklyAggregator`,
`MonthlyAggregator`.

Modelling decisions:

* Timestamps are natural numbers: seconds since 0001-01-01T00:00:00 UTC
  (Python's `datetime.min`; that day is a Monday, and Python's
  `date(1,1,1).weekday() == 0`).  The SQL comparisons on ISO-8601 strings
  with a fixed UTC offset agree with chronological order, so they are
  modelled as numeric comparisons.
* Power values (`grid`, `solar`, `home`) are rationals (Python floats are
  used only for sums, comparisons with 0 and one division).
* The database tables are lists in `id` order; the source tables are
  append-only and rows arrive in timestamp order, so `id` order equals
  timestamp order (stated as explicit sortedness hypotheses where needed).
* `deadline_expired` compares the wall clock against `deadline - 5s`.
  Since the wall clock is monotone, the sequence of results of the checks
  inside one call is `False, ..., False, True, True, ...`; the deadline is
  therefore modelled as a budget `b : ℕ` of checks that return `False`.
  Every loop iteration of `get_source_data` and of the slot loop of
  `process_aggregation` performs exactly one check, which makes both loops
  structurally recursive on the budget.
* The only runtime error reachable inside the engine is the `IndexError`
  raised by `source_data[-1]` on an empty list (aggregator.py line 132);
  the engine is therefore `Except String`-valued.  The batch insert at the
  end of `process_aggregation` is atomic, so an error leaves the target
  table unchanged.
-/

/-! ## Data model: rows and database state -/

/-- A row of a source table (`samples` or `daily`):
`(id autoincrement, grid, solar, home, timestamp)`.  The `id` is implicit
in the list position. -/
structure SourceRow where
  timestamp : Nat
  grid : ℚ
  solar : ℚ
  home : ℚ
deriving DecidableEq

/-- A row of a summary table (`fiveminute`, `hourly`, `weekly`, `monthly`). -/
structure AggRow where
  timestamp : Nat
  grid : ℚ
  solar : ℚ
  home : ℚ
deriving DecidableEq

/-- The database state seen by one aggregator: its source table and its
target summary table, each in `id` (= insertion) order. -/
structure DB where
  source : List SourceRow
  target : List AggRow
deriving DecidableEq

/-- `grid != 0 or solar != 0 or home != 0` (the SQL predicate used by the
gap search of `get_source_data` and by the skip branch of
`process_aggregation`). -/
def rowNonzero (r : SourceRow) : Bool :=
  decide (r.grid ≠ 0) || decide (r.solar ≠ 0) || decide (r.home ≠ 0)

/-- `timestamp >= s and timestamp < e` (the half-open range predicate of
the window fetch and of the per-slot row selection). -/
def tsBetween (s e : Nat) (r : SourceRow) : Bool :=
  decide (s ≤ r.timestamp) && decide (r.timestamp < e)

/-- `timestamp > s and (grid != 0 or solar != 0 or home != 0)` (the gap
search predicate). -/
def afterNonzero (s : Nat) (r : SourceRow) : Bool :=
  decide (s < r.timestamp) && rowNonzero r

/-! ## Slot geometry of the four resolutions

Each subclass defines `time_slot` (start of the containing slot) and
`time_slot_increment` (advance a slot start by `n` slots), on timestamps in
seconds since 0001-01-01T00:00:00 UTC. -/

/-- `FiveMinuteAggregator.time_slot`:
`res = dt.replace(minute=0, second=0, microsecond=0)`;
`slot_num = (dt - res) // timedelta(minutes=5)`;
`res + timedelta(minutes=5) * slot_num`. -/
def fiveMinuteTimeSlot (t : Nat) : Nat :=
  (t - t % 3600) + 300 * ((t - (t - t % 3600)) / 300)

/-- `FiveMinuteAggregator.time_slot_increment`: `dt + 5min * increment`. -/
def fiveMinuteIncrement (t : Nat) (n : Nat) : Nat := t + 300 * n

/-- `HourlyAggregator.time_slot`: `dt.replace(minute=0, second=0, microsecond=0)`. -/
def hourlyTimeSlot (t : Nat) : Nat := t - t % 3600

/-- `HourlyAggregator.time_slot_increment`: `dt + 1h * increment`. -/
def hourlyIncrement (t : Nat) (n : Nat) : Nat := t + 3600 * n

/-- `WeeklyAggregator.time_slot`:
`dt.replace(hour=0, minute=0, second=0, microsecond=0) - timedelta(days=dt.weekday())`.
With the epoch 0001-01-01 (a Monday), `weekday(dt) = (dt // 86400) % 7`. -/
def weeklyTimeSlot (t : Nat) : Nat :=
  (t - t % 86400) - 86400 * ((t / 86400) % 7)

/-- `WeeklyAggregator.time_slot_increment`: `dt + 7d * increment`. -/
def weeklyIncrement (t : Nat) (n : Nat) : Nat := t + 604800 * n

/-- The proleptic Gregorian leap-year rule (Python's `calendar.isleap`). -/
def isLeap (y : Nat) : Bool :=
  y % 4 == 0 && (y % 100 != 0 || y % 400 == 0)

/-- Days in month `m` (1-12) of year `y`. -/
def monthDays (y m : Nat) : Nat :=
  if m = 2 then (if isLeap y then 29 else 28)
  else if m = 4 ∨ m = 6 ∨ m = 9 ∨ m = 11 then 30
  else 31

/-- Length of month number `i` counted from 0001-01 (month `i` is month
`1 + i % 12` of year `1 + i / 12`). -/
def monthLen (i : Nat) : Nat := monthDays (1 + i / 12) (1 + i % 12)

/-- Day number (days since 0001-01-01) of the first day of month `i`. -/
def monthStartDay : Nat → Nat
  | 0 => 0
  | i + 1 => monthStartDay i + monthLen i

/-- Largest `i ≤ f` with `monthStartDay i ≤ d` (downward search). -/
def monthOfDayAux : Nat → Nat → Nat
  | 0, _ => 0
  | f + 1, d => if monthStartDay (f + 1) ≤ d then f + 1 else monthOfDayAux f d

/-- The month number containing day `d`.  Fuel `d` suffices because
`i ≤ monthStartDay i` (every month has at least 28 days). -/
def monthOfDay (d : Nat) : Nat := monthOfDayAux d d

/-- `MonthlyAggregator.time_slot`:
`dt.replace(day=1, hour=0, minute=0, second=0, microsecond=0)`, i.e. the
first midnight of the month containing `t`. -/
def monthlyTimeSlot (t : Nat) : Nat :=
  86400 * monthStartDay (monthOfDay (t / 86400))

/-- One step of `MonthlyAggregator.time_slot_increment`:
`dt = dt + timedelta(days=31); dt = dt.replace(day=1, hour=0, ...)`. -/
def monthlyStep (t : Nat) : Nat := monthlyTimeSlot (t + 31 * 86400)

/-- `MonthlyAggregator.time_slot_increment`: the 31-day step repeated
`increment` times. -/
def monthlyIncrement (t : Nat) (n : Nat) : Nat := monthlyStep^[n] t

/-! ## Resolutions

A resolution bundles the data of one `DataAggregator` subclass: the slot
geometry and the unit conversion (`convert_units`).  The four instances
are below; `GoodRes` (further down) is the well-behavedness that all four
provably enjoy. -/

structure Resolution where
  time_slot : Nat → Nat
  time_slot_increment : Nat → Nat → Nat
  convert_units : ℚ → Nat → ℚ

/-- `value / num_samples if num_samples > 0 else 0.0` (five-minute and
hourly aggregators: average kW). -/
def avgConvert (v : ℚ) (n : Nat) : ℚ := if 0 < n then v / n else 0

/-- `FiveMinuteAggregator` (`table = "fiveminute"`, `source_table = "samples"`). -/
def fiveMinuteRes : Resolution :=
  { time_slot := fiveMinuteTimeSlot
    time_slot_increment := fiveMinuteIncrement
    convert_units := avgConvert }

/-- `HourlyAggregator` (`table = "hourly"`, `source_table = "samples"`). -/
def hourlyRes : Resolution :=
  { time_slot := hourlyTimeSlot
    time_slot_increment := hourlyIncrement
    convert_units := avgConvert }

/-- `WeeklyAggregator` (`table = "weekly"`, `source_table = "daily"`,
values kept in kWh). -/
def weeklyRes : Resolution :=
  { time_slot := weeklyTimeSlot
    time_slot_increment := weeklyIncrement
    convert_units := fun v _ => v }

/-- `MonthlyAggregator` (`table = "monthly"`, `source_table = "daily"`,
values kept in kWh). -/
def monthlyRes : Resolution :=
  { time_slot := monthlyTimeSlot
    time_slot_increment := monthlyIncrement
    convert_units := fun v _ => v }

/-! ## The engine -/

/-- `DataAggregator.get_last_aggregate_timestamp`: the timestamp of the
last target row; if the target is empty, `time_slot` of the first source
row; `none` if both tables are empty. -/
def getLastAggregateTimestamp (res : Resolution) (db : DB) : Option Nat :=
  match db.target.getLast? with
  | some row => some row.timestamp
  | none => db.source.head?.map (fun r => res.time_slot r.timestamp)

/-- The initial slot cursor of `process_aggregation` (line 177):
`time_slot_increment(last_aggregate_timestamp)` — note that the increment
is applied in the bootstrap case as well. -/
def initialCursor (res : Resolution) (db : DB) : Option Nat :=
  (getLastAggregateTimestamp res db).map (fun t => res.time_slot_increment t 1)

/-- `DataAggregator.get_source_data`.  Arguments: the source table, the
last source timestamp, the deadline budget, the current
`slot_start_timestamp` and the accumulated `source_data`.  Returns the
accumulated rows, the remaining budget, and whether the loop stopped
because the deadline expired.  Errors with the `IndexError` of
`source_data[-1]` when the accumulated data is empty after a fetch. -/
def getSourceData (res : Resolution) (source : List SourceRow) (lastSrc : Nat) :
    Nat → Nat → List SourceRow → Except String (List SourceRow × Nat × Bool)
  | 0, _, acc => .ok (acc, 0, true)
  | b + 1, s, acc =>
    let fetched := source.filter (tsBetween s (res.time_slot_increment s 2000))
    let acc' := acc ++ fetched
    match acc'.getLast? with
    | none => .error "IndexError: list index out of range"
    | some lastRow =>
      if res.time_slot_increment s 1 ≤ lastRow.timestamp then
        .ok (acc', b, false)
      else if lastSrc ≤ lastRow.timestamp then
        .ok (acc', b, false)
      else
        match (source.filter (afterNonzero (res.time_slot_increment s 1))).head? with
        | some r => getSourceData res source lastSrc b (res.time_slot r.timestamp) acc'
        | none => .ok (acc', b, false)

/-- The per-slot accumulation of `process_aggregation` (lines 197-209):
over the rows of `buf` with `s ≤ timestamp < e`, sum the positive part of
`grid`, and `solar` and `home` as they are, counting the rows. -/
def sumStep (acc : ℚ × ℚ × ℚ × Nat) (r : SourceRow) : ℚ × ℚ × ℚ × Nat :=
  (if 0 < r.grid then acc.1 + r.grid else acc.1,
   acc.2.1 + r.solar, acc.2.2.1 + r.home, acc.2.2.2 + 1)

def slotSums (buf : List SourceRow) (s e : Nat) : ℚ × ℚ × ℚ × Nat :=
  (buf.filter (tsBetween s e)).foldl sumStep (0, 0, 0, 0)

/-- The condition of the slot loop (line 184-185):
`source_data and slot_start < time_slot(source_data[-1].timestamp)`.
(The deadline is checked separately, only when this holds.) -/
def loopCond (res : Resolution) (buf : List SourceRow) (s : Nat) : Bool :=
  match buf.getLast? with
  | none => false
  | some r => decide (s < res.time_slot r.timestamp)

/-- Result of the slot loop: the `aggregate_rows` batch, the final
`slot_start_timestamp`, the remaining budget, and whether the loop
stopped because the deadline expired. -/
structure LoopOut where
  rows : List AggRow
  slot : Nat
  left : Nat
  expired : Bool
deriving DecidableEq

/-- One iteration of the slot loop body (lines 188-238): the row appended
for the slot starting at `s` (if any) and the next `slot_start_timestamp`.
When the slot's sums are not positive, the skip branch searches the buffer
for the first row after `s` with a non-zero field and jumps to the start
of its slot. -/
def slotBody (res : Resolution) (buf : List SourceRow) (s : Nat) :
    Option AggRow × Nat :=
  let e := res.time_slot_increment s 1
  let sums := slotSums buf s e
  if 0 < sums.1 ∨ 0 < sums.2.1 ∨ 0 < sums.2.2.1 then
    (some ⟨s, res.convert_units sums.1 sums.2.2.2,
              res.convert_units sums.2.1 sums.2.2.2,
              res.convert_units sums.2.2.1 sums.2.2.2⟩, e)
  else
    (none,
      match (buf.filter (afterNonzero s)).head? with
      | some r => res.time_slot r.timestamp
      | none => e)

/-- The slot loop of `process_aggregation` (lines 184-238). -/
def slotLoop (res : Resolution) (buf : List SourceRow) :
    Nat → Nat → List AggRow → LoopOut
  | 0, s, acc =>
    if loopCond res buf s then ⟨acc, s, 0, true⟩ else ⟨acc, s, 0, false⟩
  | b + 1, s, acc =>
    if loopCond res buf s then
      slotLoop res buf b (slotBody res buf s).2 (acc ++ (slotBody res buf s).1.toList)
    else ⟨acc, s, b + 1, false⟩

/-- `DataAggregator.process_aggregation` with deadline budget `b`.
Returns the batch of rows appended to the target table, the remaining
budget and whether a deadline check expired during the call; or the
propagated `IndexError`. -/
def processAggregation (res : Resolution) (db : DB) (b : Nat) :
    Except String (List AggRow × Nat × Bool) :=
  match db.source.getLast?, getLastAggregateTimestamp res db with
  | some lastRow, some lastAgg =>
    let c := res.time_slot_increment lastAgg 1
    match getSourceData res db.source lastRow.timestamp b c [] with
    | .error e => .error e
    | .ok (buf, b1, scanExp) =>
      let out := slotLoop res buf b1 c []
      .ok (out.rows, out.left, scanExp || out.expired)
  | _, _ => .ok ([], b, false)

/-- The rows a call of `process_aggregation` inserts into the target
table (empty when the call raises, since the batch insert at the end is
atomic and never reached). -/
def appendedRows (res : Resolution) (db : DB) (b : Nat) : List AggRow :=
  match processAggregation res db b with
  | .ok (rows, _, _) => rows
  | .error _ => []

/-- The database state after one call of `process_aggregation`. -/
def applyAgg (res : Resolution) (db : DB) (b : Nat) : DB :=
  { db with target := db.target ++ appendedRows res db b }

/-- Whether a deadline check expired during the call. -/
def runExpired (res : Resolution) (db : DB) (b : Nat) : Bool :=
  match processAggregation res db b with
  | .ok (_, _, e) => e
  | .error _ => false

/-- Whether the call raised an exception. -/
def runErrored (res : Resolution) (db : DB) (b : Nat) : Bool :=
  match processAggregation res db b with
  | .ok _ => false
  | .error _ => true

/-- The exception raised by the call, if any. -/
def runError (res : Resolution) (db : DB) (b : Nat) : Option String :=
  match processAggregation res db b with
  | .ok _ => none
  | .error e => some e

/-- The exception raised by `get_source_data`, if any. -/
def scanError (res : Resolution) (source : List SourceRow) (lastSrc b s : Nat)
    (acc : List SourceRow) : Option String :=
  match getSourceData res source lastSrc b s acc with
  | .ok _ => none
  | .error e => some e

/-- The source tables are append-only and rows arrive in timestamp
order, so `id` order is timestamp order. -/
def srcSorted (l : List SourceRow) : Prop :=
  l.Pairwise (fun a r => a.timestamp ≤ r.timestamp)

/-- The suffix of the source table from timestamp `s` on. -/
def rowsFrom (source : List SourceRow) (s : Nat) : List SourceRow :=
  source.filter (fun r => decide (s ≤ r.timestamp))

/-! ## Well-behavedness of the slot geometry

`GoodRes res` collects the properties of a resolution's slot geometry that
the engine proofs rely on.  All four resolutions are proved to satisfy it
below. -/

/-- `t` is a slot start. -/
def Resolution.aligned (res : Resolution) (t : Nat) : Prop := res.time_slot t = t

structure GoodRes (res : Resolution) : Prop where
  ts_le : ∀ t, res.time_slot t ≤ t
  ts_idem : ∀ t, res.time_slot (res.time_slot t) = res.time_slot t
  ts_mono : ∀ a b, a ≤ b → res.time_slot a ≤ res.time_slot b
  incr_gt : ∀ t n, 0 < n → t < res.time_slot_increment t n
  incr_mono : ∀ a b n, a ≤ b → res.time_slot_increment a n ≤ res.time_slot_increment b n
  incr_aligned : ∀ t n, res.aligned t → res.aligned (res.time_slot_increment t n)
  incr_min : ∀ a b, res.aligned a → res.aligned b → a < b → res.time_slot_increment a 1 ≤ b

theorem fiveMinuteTimeSlot_eq (t : Nat) : fiveMinuteTimeSlot t = t - t % 300 := by
  unfold fiveMinuteTimeSlot
  omega

theorem goodFiveMinute : GoodRes fiveMinuteRes := by
  have hts : ∀ t, fiveMinuteRes.time_slot t = t - t % 300 := fiveMinuteTimeSlot_eq
  have hal : ∀ t, fiveMinuteRes.aligned t ↔ t % 300 = 0 := by
    intro t
    unfold Resolution.aligned
    rw [hts]
    omega
  refine ⟨?_, ?_, ?_, ?_, ?_, ?_, ?_⟩
  · intro t; rw [hts]; omega
  · intro t; rw [hts, hts]; omega
  · intro a b h; rw [hts, hts]; omega
  · intro t n hn
    show t < t + 300 * n
    omega
  · intro a b n h
    show a + 300 * n ≤ b + 300 * n
    omega
  · intro t n h
    rw [hal] at h ⊢
    show (t + 300 * n) % 300 = 0
    omega
  · intro a b ha hb h
    rw [hal] at ha hb
    show a + 300 * 1 ≤ b
    omega

theorem goodHourly : GoodRes hourlyRes := by
  have hal : ∀ t, hourlyRes.aligned t ↔ t % 3600 = 0 := by
    intro t
    unfold Resolution.aligned
    show t - t % 3600 = t ↔ _
    omega
  refine ⟨?_, ?_, ?_, ?_, ?_, ?_, ?_⟩
  · intro t; show t - t % 3600 ≤ t; omega
  · intro t; show (t - t % 3600) - (t - t % 3600) % 3600 = t - t % 3600; omega
  · intro a b h; show a - a % 3600 ≤ b - b % 3600; omega
  · intro t n hn; show t < t + 3600 * n; omega
  · intro a b n h; show a + 3600 * n ≤ b + 3600 * n; omega
  · intro t n h
    rw [hal] at h ⊢
    show (t + 3600 * n) % 3600 = 0
    omega
  · intro a b ha hb h
    rw [hal] at ha hb
    show a + 3600 * 1 ≤ b
    omega

theorem weeklyTimeSlot_eq (t : Nat) : weeklyTimeSlot t = t - t % 604800 := by
  unfold weeklyTimeSlot
  omega

theorem goodWeekly : GoodRes weeklyRes := by
  have hts : ∀ t, weeklyRes.time_slot t = t - t % 604800 := weeklyTimeSlot_eq
  have hal : ∀ t, weeklyRes.aligned t ↔ t % 604800 = 0 := by
    intro t
    unfold Resolution.aligned
    rw [hts]
    omega
  refine ⟨?_, ?_, ?_, ?_, ?_, ?_, ?_⟩
  · intro t; rw [hts]; omega
  · intro t; rw [hts, hts]; omega
  · intro a b h; rw [hts, hts]; omega
  · intro t n hn; show t < t + 604800 * n; omega
  · intro a b n h; show a + 604800 * n ≤ b + 604800 * n; omega
  · intro t n h
    rw [hal] at h ⊢
    show (t + 604800 * n) % 604800 = 0
    omega
  · intro a b ha hb h
    rw [hal] at ha hb
    show a + 604800 * 1 ≤ b
    omega

/-! ### The monthly calendar -/

theorem monthStartDay_zero : monthStartDay 0 = 0 := rfl

theorem monthStartDay_succ (i : Nat) :
    monthStartDay (i + 1) = monthStartDay i + monthLen i := rfl

theorem monthDays_bounds (y m : Nat) : 28 ≤ monthDays y m ∧ monthDays y m ≤ 31 := by
  unfold monthDays
  split
  · split <;> omega
  · split <;> omega

theorem monthLen_bounds (i : Nat) : 28 ≤ monthLen i ∧ monthLen i ≤ 31 :=
  monthDays_bounds (1 + i / 12) (1 + i % 12)

theorem monthStartDay_lt_succ (i : Nat) : monthStartDay i < monthStartDay (i + 1) := by
  have h := monthLen_bounds i
  rw [monthStartDay_succ]
  omega

theorem monthStartDay_mono {i j : Nat} (h : i ≤ j) :
    monthStartDay i ≤ monthStartDay j := by
  induction j with
  | zero =>
    have h0 : i = 0 := by omega
    subst h0
    exact Nat.le_refl _
  | succ j ih =>
    have hstep := monthStartDay_lt_succ j
    rcases Nat.lt_or_ge i (j + 1) with h1 | h1
    · have h2 := ih (by omega)
      omega
    · have h0 : i = j + 1 := by omega
      subst h0
      exact Nat.le_refl _

theorem monthStartDay_strict_mono {i j : Nat} (h : i < j) :
    monthStartDay i < monthStartDay j := by
  have h1 := monthStartDay_lt_succ i
  have h2 : monthStartDay (i + 1) ≤ monthStartDay j := monthStartDay_mono (by omega)
  omega

theorem le_monthStartDay (i : Nat) : i ≤ monthStartDay i := by
  induction i with
  | zero => omega
  | succ i ih =>
    have := monthLen_bounds i
    rw [monthStartDay_succ]
    omega

theorem monthOfDayAux_eq :
    ∀ f {d i}, monthStartDay i ≤ d → d < monthStartDay (i + 1) → i ≤ f →
      monthOfDayAux f d = i := by
  intro f
  induction f with
  | zero =>
    intro d i h1 h2 h3
    unfold monthOfDayAux
    omega
  | succ f ih =>
    intro d i h1 h2 h3
    unfold monthOfDayAux
    split
    · rename_i hle
      by_contra hne
      have hlt : i + 1 ≤ f + 1 := by omega
      have h4 : monthStartDay (i + 1) ≤ monthStartDay (f + 1) := monthStartDay_mono hlt
      omega
    · rename_i hgt
      have h5 : i ≠ f + 1 := by
        intro he
        subst he
        exact hgt h1
      exact ih h1 h2 (by omega)

theorem monthOfDay_spec (d : Nat) :
    monthStartDay (monthOfDay d) ≤ d ∧ d < monthStartDay (monthOfDay d + 1) := by
  have hex : ∀ n, ∃ i, i ≤ n ∧ monthStartDay i ≤ n ∧ n < monthStartDay (i + 1) := by
    intro n
    induction n with
    | zero =>
      have h1 := monthStartDay_lt_succ 0
      have h0 := monthStartDay_zero
      exact ⟨0, by omega, by omega, by omega⟩
    | succ n ih =>
      obtain ⟨i, hi1, hi2, hi3⟩ := ih
      rcases Nat.lt_or_ge (n + 1) (monthStartDay (i + 1)) with h | h
      · exact ⟨i, by omega, by omega, h⟩
      · have he : monthStartDay (i + 1) = n + 1 := by omega
        have hle := le_monthStartDay (i + 1)
        have hlt := monthStartDay_lt_succ (i + 1)
        exact ⟨i + 1, by omega, by omega, by omega⟩
  obtain ⟨i, hi1, hi2, hi3⟩ := hex d
  have he : monthOfDay d = i := monthOfDayAux_eq d hi2 hi3 hi1
  rw [he]
  exact ⟨hi2, hi3⟩

theorem monthOfDay_monthStartDay (i : Nat) : monthOfDay (monthStartDay i) = i :=
  monthOfDayAux_eq _ (Nat.le_refl _) (monthStartDay_lt_succ i) (le_monthStartDay i)

theorem monthOfDay_unique {d i : Nat} (h1 : monthStartDay i ≤ d)
    (h2 : d < monthStartDay (i + 1)) : monthOfDay d = i := by
  have hs := monthOfDay_spec d
  by_contra hne
  rcases Nat.lt_or_ge (monthOfDay d) i with h | h
  · have h3 : monthStartDay (monthOfDay d + 1) ≤ monthStartDay i :=
      monthStartDay_mono (by omega)
    omega
  · have hlt : i + 1 ≤ monthOfDay d := by omega
    have h3 : monthStartDay (i + 1) ≤ monthStartDay (monthOfDay d) :=
      monthStartDay_mono hlt
    omega

theorem monthOfDay_mono {a b : Nat} (h : a ≤ b) : monthOfDay a ≤ monthOfDay b := by
  have ha := monthOfDay_spec a
  have hb := monthOfDay_spec b
  by_contra hc
  have hlt : monthOfDay b + 1 ≤ monthOfDay a := by omega
  have h3 : monthStartDay (monthOfDay b + 1) ≤ monthStartDay (monthOfDay a) :=
    monthStartDay_mono hlt
  omega

theorem monthlyTimeSlot_le (t : Nat) : monthlyTimeSlot t ≤ t := by
  unfold monthlyTimeSlot
  have h := (monthOfDay_spec (t / 86400)).1
  have h3 : 86400 * (t / 86400) ≤ t := by omega
  omega

theorem monthlyTimeSlot_monthStart (i : Nat) :
    monthlyTimeSlot (86400 * monthStartDay i) = 86400 * monthStartDay i := by
  unfold monthlyTimeSlot
  have hd : 86400 * monthStartDay i / 86400 = monthStartDay i := by omega
  rw [hd, monthOfDay_monthStartDay]

theorem monthlyTimeSlot_idem (t : Nat) :
    monthlyTimeSlot (monthlyTimeSlot t) = monthlyTimeSlot t :=
  monthlyTimeSlot_monthStart (monthOfDay (t / 86400))

theorem monthlyTimeSlot_mono {a b : Nat} (h : a ≤ b) :
    monthlyTimeSlot a ≤ monthlyTimeSlot b := by
  unfold monthlyTimeSlot
  have h1 : a / 86400 ≤ b / 86400 := by omega
  have h2 := monthOfDay_mono h1
  have h3 := monthStartDay_mono h2
  omega

/-- The aligned timestamps of the monthly resolution are exactly the
month starts. -/
theorem monthlyAligned_iff (t : Nat) :
    monthlyTimeSlot t = t ↔ ∃ i, t = 86400 * monthStartDay i := by
  constructor
  · intro h
    exact ⟨monthOfDay (t / 86400), h.symm⟩
  · rintro ⟨i, rfl⟩
    exact monthlyTimeSlot_monthStart i

theorem monthlyStep_gt (t : Nat) : t < monthlyStep t := by
  unfold monthlyStep monthlyTimeSlot
  have hdiv : (t + 31 * 86400) / 86400 = t / 86400 + 31 := by omega
  rw [hdiv]
  have hspec := monthOfDay_spec (t / 86400)
  have hlen := monthLen_bounds (monthOfDay (t / 86400))
  have hsucc := monthStartDay_succ (monthOfDay (t / 86400))
  have hnext : monthStartDay (monthOfDay (t / 86400) + 1) ≤ t / 86400 + 31 := by
    omega
  have hspec2 := monthOfDay_spec (t / 86400 + 31)
  have hmo : monthOfDay (t / 86400) + 1 ≤ monthOfDay (t / 86400 + 31) := by
    by_contra hc
    have hlt : monthOfDay (t / 86400 + 31) + 1 ≤ monthOfDay (t / 86400) + 1 := by omega
    have h3 : monthStartDay (monthOfDay (t / 86400 + 31) + 1) ≤
        monthStartDay (monthOfDay (t / 86400) + 1) := monthStartDay_mono hlt
    omega
  have h2 : monthStartDay (monthOfDay (t / 86400) + 1) ≤
      monthStartDay (monthOfDay (t / 86400 + 31)) := monthStartDay_mono hmo
  have h4 : t < 86400 * (t / 86400 + 1) := by omega
  omega

theorem monthlyStep_monthStart (i : Nat) :
    monthlyStep (86400 * monthStartDay i) = 86400 * monthStartDay (i + 1) := by
  unfold monthlyStep monthlyTimeSlot
  have hdiv : (86400 * monthStartDay i + 31 * 86400) / 86400 = monthStartDay i + 31 := by
    omega
  rw [hdiv]
  have hlen1 := monthLen_bounds i
  have hlen2 := monthLen_bounds (i + 1)
  have hs1 := monthStartDay_succ i
  have hs2 := monthStartDay_succ (i + 1)
  have h1 : monthStartDay (i + 1) ≤ monthStartDay i + 31 := by omega
  have h2 : monthStartDay i + 31 < monthStartDay (i + 1 + 1) := by omega
  rw [monthOfDay_unique h1 h2]

theorem monthlyStep_mono {a b : Nat} (h : a ≤ b) : monthlyStep a ≤ monthlyStep b :=
  monthlyTimeSlot_mono (by omega)

theorem goodMonthly : GoodRes monthlyRes := by
  have hstep : ∀ t n, monthlyRes.time_slot_increment t n = monthlyStep^[n] t :=
    fun _ _ => rfl
  refine ⟨monthlyTimeSlot_le, monthlyTimeSlot_idem, fun a b h => monthlyTimeSlot_mono h,
    ?_, ?_, ?_, ?_⟩
  · intro t n hn
    rw [hstep]
    induction n with
    | zero => omega
    | succ n ih =>
      rw [Function.iterate_succ_apply']
      rcases Nat.eq_zero_or_pos n with h0 | h0
      · subst h0
        simpa using monthlyStep_gt t
      · have h1 := ih h0
        have h2 := monthlyStep_gt (monthlyStep^[n] t)
        omega
  · intro a b n h
    rw [hstep, hstep]
    induction n with
    | zero => simpa
    | succ n ih =>
      rw [Function.iterate_succ_apply', Function.iterate_succ_apply']
      exact monthlyStep_mono ih
  · intro t n h
    rw [Resolution.aligned, hstep]
    induction n with
    | zero => simpa using h
    | succ n ih =>
      rw [Function.iterate_succ_apply']
      show monthlyTimeSlot (monthlyTimeSlot _) = _
      exact monthlyTimeSlot_idem _
  · intro a b ha hb hab
    have ha2 := (monthlyAligned_iff a).1 ha
    have hb2 := (monthlyAligned_iff b).1 hb
    obtain ⟨i, rfl⟩ := ha2
    obtain ⟨j, rfl⟩ := hb2
    have hij : i < j := by
      by_contra hc
      have : monthStartDay j ≤ monthStartDay i := monthStartDay_mono (by omega)
      omega
    show monthlyStep^[1] _ ≤ _
    rw [Function.iterate_one, monthlyStep_monthStart]
    have : monthStartDay (i + 1) ≤ monthStartDay j := monthStartDay_mono (by omega)
    omega

/-! ## C9: slot-start functions are idempotent and non-increasing -/

/-- C9: for every resolution among fiveminute, hourly, weekly and monthly
and every timestamp `t`, `time_slot (time_slot t) = time_slot t` and
`time_slot t ≤ t`. -/
theorem c9_time_slot_idem_le (t : Nat) :
    (fiveMinuteTimeSlot (fiveMinuteTimeSlot t) = fiveMinuteTimeSlot t ∧
      fiveMinuteTimeSlot t ≤ t) ∧
    (hourlyTimeSlot (hourlyTimeSlot t) = hourlyTimeSlot t ∧ hourlyTimeSlot t ≤ t) ∧
    (weeklyTimeSlot (weeklyTimeSlot t) = weeklyTimeSlot t ∧ weeklyTimeSlot t ≤ t) ∧
    (monthlyTimeSlot (monthlyTimeSlot t) = monthlyTimeSlot t ∧ monthlyTimeSlot t ≤ t) :=
  ⟨⟨goodFiveMinute.ts_idem t, goodFiveMinute.ts_le t⟩,
   ⟨goodHourly.ts_idem t, goodHourly.ts_le t⟩,
   ⟨goodWeekly.ts_idem t, goodWeekly.ts_le t⟩,
   ⟨goodMonthly.ts_idem t, goodMonthly.ts_le t⟩⟩

/-! ## C8: per-row contribution to the slot sums -/

theorem foldl_sumStep_shift :
    ∀ (l : List SourceRow) (a : ℚ × ℚ × ℚ × Nat),
      l.foldl sumStep a =
        (a.1 + (l.foldl sumStep (0, 0, 0, 0)).1,
         a.2.1 + (l.foldl sumStep (0, 0, 0, 0)).2.1,
         a.2.2.1 + (l.foldl sumStep (0, 0, 0, 0)).2.2.1,
         a.2.2.2 + (l.foldl sumStep (0, 0, 0, 0)).2.2.2) := by
  intro l
  induction l with
  | nil =>
    intro a
    obtain ⟨a1, a2, a3, a4⟩ := a
    simp
  | cons r l ih =>
    intro a
    simp only [List.foldl_cons]
    rw [ih (sumStep a r), ih (sumStep (0, 0, 0, 0) r)]
    unfold sumStep
    by_cases hg : 0 < r.grid <;>
      simp only [hg, if_true, if_false, Prod.mk.injEq] <;>
      exact ⟨by ring, by ring, by ring, by omega⟩

/-- C8: in the per-slot summation, a source row inside the slot
contributes `max(row.grid, 0)` to the grid accumulator and its `solar`
and `home` values unchanged to the other two accumulators (and `1` to the
sample count). -/
theorem c8_row_contribution (buf1 buf2 : List SourceRow) (r : SourceRow) (s e : Nat)
    (h1 : s ≤ r.timestamp) (h2 : r.timestamp < e) :
    (slotSums (buf1 ++ r :: buf2) s e).1 = (slotSums (buf1 ++ buf2) s e).1 + max r.grid 0 ∧
    (slotSums (buf1 ++ r :: buf2) s e).2.1 = (slotSums (buf1 ++ buf2) s e).2.1 + r.solar ∧
    (slotSums (buf1 ++ r :: buf2) s e).2.2.1 =
      (slotSums (buf1 ++ buf2) s e).2.2.1 + r.home ∧
    (slotSums (buf1 ++ r :: buf2) s e).2.2.2 =
      (slotSums (buf1 ++ buf2) s e).2.2.2 + 1 := by
  have hr : tsBetween s e r = true := by
    unfold tsBetween
    simp [h1, h2]
  unfold slotSums
  rw [List.filter_append, List.filter_append, List.filter_cons, hr]
  simp only [if_true]
  rw [List.foldl_append, List.foldl_append, List.foldl_cons]
  rw [foldl_sumStep_shift (List.filter (tsBetween s e) buf2)
    (sumStep (List.foldl sumStep (0, 0, 0, 0) (List.filter (tsBetween s e) buf1)) r)]
  rw [foldl_sumStep_shift (List.filter (tsBetween s e) buf2)
    (List.foldl sumStep (0, 0, 0, 0) (List.filter (tsBetween s e) buf1))]
  unfold sumStep
  rcases le_or_lt r.grid 0 with hg | hg
  · have hng : ¬ (0 < r.grid) := by exact not_lt.mpr hg
    have hmax : max r.grid 0 = 0 := by
      exact max_eq_right hg
    simp only [hng, if_false, hmax]
    refine ⟨by ring, by ring, by ring, by omega⟩
  · have hmax : max r.grid 0 = r.grid := by
      exact max_eq_left (le_of_lt hg)
    simp only [hg, if_true, hmax]
    refine ⟨by ring, by ring, by ring, by omega⟩

/-- Witness for C8 at the spec's example row `grid = -5, solar = 2,
home = 3`: it contributes `0`, `2`, `3` (and one sample). -/
theorem c8_row_contribution_witness :
    ((slotSums ([] ++ (⟨0, -5, 2, 3⟩ : SourceRow) :: []) 0 300).1 =
        (slotSums ([] ++ []) 0 300).1 + max (-5 : ℚ) 0 ∧
      (slotSums ([] ++ (⟨0, -5, 2, 3⟩ : SourceRow) :: []) 0 300).2.1 =
        (slotSums ([] ++ []) 0 300).2.1 + 2 ∧
      (slotSums ([] ++ (⟨0, -5, 2, 3⟩ : SourceRow) :: []) 0 300).2.2.1 =
        (slotSums ([] ++ []) 0 300).2.2.1 + 3 ∧
      (slotSums ([] ++ (⟨0, -5, 2, 3⟩ : SourceRow) :: []) 0 300).2.2.2 =
        (slotSums ([] ++ []) 0 300).2.2.2 + 1) ∧
    slotSums [⟨0, -5, 2, 3⟩] 0 300 = (0, 2, 3, 1) :=
  ⟨c8_row_contribution [] [] ⟨0, -5, 2, 3⟩ 0 300 (by decide) (by decide),
   by with_unfolding_all decide⟩

/-! ## General lemmas about the slot loop -/

/-- The accumulated batch is threaded without being inspected: the loop
output equals the accumulator followed by the rows the loop itself
appends. -/
theorem slotLoop_acc (res : Resolution) (buf : List SourceRow) :
    ∀ b s acc, slotLoop res buf b s acc =
      ⟨acc ++ (slotLoop res buf b s []).rows, (slotLoop res buf b s []).slot,
       (slotLoop res buf b s []).left, (slotLoop res buf b s []).expired⟩ := by
  intro b
  induction b with
  | zero =>
    intro s acc
    unfold slotLoop
    split <;> simp
  | succ b ih =>
    intro s acc
    show slotLoop res buf (b + 1) s acc = _
    unfold slotLoop
    split
    · rw [ih _ (acc ++ (slotBody res buf s).1.toList),
        ih _ ([] ++ (slotBody res buf s).1.toList)]
      simp
    · simp

theorem head?_mem_list {α : Type} {l : List α} {a : α} (h : l.head? = some a) :
    a ∈ l := by
  cases l with
  | nil => simp at h
  | cons x xs =>
    simp only [List.head?_cons, Option.some.injEq] at h
    rw [← h]
    exact List.mem_cons_self x xs

theorem slotBody_row_eq (res : Resolution) (buf : List SourceRow) (s : Nat) :
    ∀ row, (slotBody res buf s).1 = some row → row.timestamp = s := by
  intro row h
  simp only [slotBody] at h
  split at h
  · simp only [Option.some.injEq] at h
    rw [← h]
  · simp at h

/-- The next cursor produced by one loop iteration never moves backwards
(for a slot-aligned current cursor). -/
theorem slotBody_next_ge (res : Resolution) (h : GoodRes res) (buf : List SourceRow)
    (s : Nat) (hs : res.aligned s) : s ≤ (slotBody res buf s).2 := by
  simp only [slotBody]
  split
  · exact Nat.le_of_lt (h.incr_gt s 1 (by omega))
  · show s ≤ (match (buf.filter (afterNonzero s)).head? with
      | some r => res.time_slot r.timestamp
      | none => res.time_slot_increment s 1)
    split
    · rename_i r hr
      have hmem := head?_mem_list hr
      have hfil := List.of_mem_filter hmem
      unfold afterNonzero at hfil
      simp only [Bool.and_eq_true, decide_eq_true_eq] at hfil
      have h1 : res.time_slot s ≤ res.time_slot r.timestamp :=
        h.ts_mono s r.timestamp (Nat.le_of_lt hfil.1)
      rw [hs] at h1
      exact h1
    · exact Nat.le_of_lt (h.incr_gt s 1 (by omega))

/-- The next cursor produced by one loop iteration is again slot-aligned. -/
theorem slotBody_next_aligned (res : Resolution) (h : GoodRes res)
    (buf : List SourceRow) (s : Nat) (hs : res.aligned s) :
    res.aligned (slotBody res buf s).2 := by
  simp only [slotBody]
  split
  · exact h.incr_aligned s 1 hs
  · show res.aligned (match (buf.filter (afterNonzero s)).head? with
      | some r => res.time_slot r.timestamp
      | none => res.time_slot_increment s 1)
    split
    · exact h.ts_idem _
    · exact h.incr_aligned s 1 hs

/-- Every row appended by the slot loop starts at or after the initial
cursor, is slot-aligned, and its slot ends no later than the slot of the
last buffered row. -/
theorem slotLoop_rows_mem (res : Resolution) (h : GoodRes res) (buf : List SourceRow) :
    ∀ b s, res.aligned s → ∀ row ∈ (slotLoop res buf b s []).rows,
      res.aligned row.timestamp ∧ s ≤ row.timestamp ∧
      ∃ lastRow, buf.getLast? = some lastRow ∧
        res.time_slot_increment row.timestamp 1 ≤ res.time_slot lastRow.timestamp := by
  intro b
  induction b with
  | zero =>
    intro s hs row hrow
    unfold slotLoop at hrow
    split at hrow <;> simp at hrow
  | succ b ih =>
    intro s hs row hrow
    rw [show slotLoop res buf (b + 1) s [] =
      if loopCond res buf s then
        slotLoop res buf b (slotBody res buf s).2 ([] ++ (slotBody res buf s).1.toList)
      else ⟨[], s, b + 1, false⟩ from rfl] at hrow
    split at hrow
    · rename_i hcond
      rw [slotLoop_acc] at hrow
      simp only [List.nil_append, List.mem_append] at hrow
      unfold loopCond at hcond
      obtain ⟨lastRow, hlast⟩ : ∃ lr, buf.getLast? = some lr := by
        rcases he : buf.getLast? with _ | lr
        · rw [he] at hcond
          simp at hcond
        · exact ⟨lr, rfl⟩
      rw [hlast] at hcond
      simp only [decide_eq_true_eq] at hcond
      rcases hrow with hrow | hrow
      · have hsome : (slotBody res buf s).1 = some row := by
          rcases hv : (slotBody res buf s).1 with _ | v
          · rw [hv] at hrow
            simp at hrow
          · rw [hv] at hrow
            simp only [Option.toList_some, List.mem_singleton] at hrow
            rw [hrow]
        have hts := slotBody_row_eq res buf s row hsome
        refine ⟨by rw [hts]; exact hs, by omega, lastRow, hlast, ?_⟩
        rw [hts]
        exact h.incr_min s (res.time_slot lastRow.timestamp) hs
          (h.ts_idem lastRow.timestamp) hcond
      · have ha := slotBody_next_aligned res h buf s hs
        have hg := slotBody_next_ge res h buf s hs
        obtain ⟨h1, h2, h3⟩ := ih (slotBody res buf s).2 ha row hrow
        exact ⟨h1, by omega, h3⟩
    · simp at hrow

/-! ## C3: which slots produce a row -/

/-- C3 counterexample: source rows `(0,1,1,1)`, `(350,0,0,-1)`,
`(700,1,1,1)` with an empty `fiveminute` table.  The slot `[300,600)` has
accumulated values `(0,0,-1)` — not all zero — yet the run appends no row
at all (the claim predicts exactly one row for that slot). -/
theorem c3_counterexample :
    appendedRows fiveMinuteRes ⟨[⟨0, 1, 1, 1⟩, ⟨350, 0, 0, -1⟩, ⟨700, 1, 1, 1⟩], []⟩ 10
      = [] ∧
    (slotSums [⟨350, 0, 0, -1⟩, ⟨700, 1, 1, 1⟩] 300 600).2.2.1 = -1 ∧
    (slotBody fiveMinuteRes [⟨350, 0, 0, -1⟩, ⟨700, 1, 1, 1⟩] 300).1 = none := by
  with_unfolding_all decide

/-- C3 (amended): a processed slot appends exactly one row iff at least
one of its accumulated values is strictly positive; in particular a slot
whose accumulated values are all zero appends no row. -/
theorem c3_row_iff_positive (res : Resolution) (buf : List SourceRow) (s : Nat) :
    ((slotBody res buf s).1.toList.length = 1 ↔
      0 < (slotSums buf s (res.time_slot_increment s 1)).1 ∨
      0 < (slotSums buf s (res.time_slot_increment s 1)).2.1 ∨
      0 < (slotSums buf s (res.time_slot_increment s 1)).2.2.1) ∧
    (∀ row, (slotBody res buf s).1 = some row → row.timestamp = s) ∧
    ((slotSums buf s (res.time_slot_increment s 1)).1 = 0 ∧
      (slotSums buf s (res.time_slot_increment s 1)).2.1 = 0 ∧
      (slotSums buf s (res.time_slot_increment s 1)).2.2.1 = 0 →
      (slotBody res buf s).1 = none) := by
  refine ⟨?_, slotBody_row_eq res buf s, ?_⟩
  · by_cases hp : 0 < (slotSums buf s (res.time_slot_increment s 1)).1 ∨
      0 < (slotSums buf s (res.time_slot_increment s 1)).2.1 ∨
      0 < (slotSums buf s (res.time_slot_increment s 1)).2.2.1
    · simp only [slotBody, if_pos hp]
      simpa using hp
    · simp only [slotBody, if_neg hp]
      simpa using hp
  · intro hz
    have hp : ¬(0 < (slotSums buf s (res.time_slot_increment s 1)).1 ∨
        0 < (slotSums buf s (res.time_slot_increment s 1)).2.1 ∨
        0 < (slotSums buf s (res.time_slot_increment s 1)).2.2.1) := by
      rw [hz.1, hz.2.1, hz.2.2]
      simp
    simp only [slotBody, if_neg hp]

/-- Witness for the amended C3 at the counterexample slot: no row is
appended because the accumulated values `(0, 0, -1)` are not positive. -/
theorem c3_row_iff_positive_witness :
    (((slotBody fiveMinuteRes [⟨350, 0, 0, -1⟩, ⟨700, 1, 1, 1⟩] 300).1.toList.length = 1 ↔
      0 < (slotSums [⟨350, 0, 0, -1⟩, ⟨700, 1, 1, 1⟩] 300
          (fiveMinuteRes.time_slot_increment 300 1)).1 ∨
      0 < (slotSums [⟨350, 0, 0, -1⟩, ⟨700, 1, 1, 1⟩] 300
          (fiveMinuteRes.time_slot_increment 300 1)).2.1 ∨
      0 < (slotSums [⟨350, 0, 0, -1⟩, ⟨700, 1, 1, 1⟩] 300
          (fiveMinuteRes.time_slot_increment 300 1)).2.2.1) ∧
    (∀ row, (slotBody fiveMinuteRes [⟨350, 0, 0, -1⟩, ⟨700, 1, 1, 1⟩] 300).1 = some row →
      row.timestamp = 300) ∧
    ((slotSums [⟨350, 0, 0, -1⟩, ⟨700, 1, 1, 1⟩] 300
        (fiveMinuteRes.time_slot_increment 300 1)).1 = 0 ∧
      (slotSums [⟨350, 0, 0, -1⟩, ⟨700, 1, 1, 1⟩] 300
        (fiveMinuteRes.time_slot_increment 300 1)).2.1 = 0 ∧
      (slotSums [⟨350, 0, 0, -1⟩, ⟨700, 1, 1, 1⟩] 300
        (fiveMinuteRes.time_slot_increment 300 1)).2.2.1 = 0 →
      (slotBody fiveMinuteRes [⟨350, 0, 0, -1⟩, ⟨700, 1, 1, 1⟩] 300).1 = none)) :=
  c3_row_iff_positive fiveMinuteRes [⟨350, 0, 0, -1⟩, ⟨700, 1, 1, 1⟩] 300

/-! ## C10: progress of the slot cursor -/

/-- C10 counterexample: with the buffered rows `(350,0,0,-1)`,
`(700,1,1,1)` and current slot start `300`, the skip branch sets the next
slot start to `300` again — not strictly greater — and the loop then
spins without progress until the deadline budget is exhausted. -/
theorem c10_counterexample :
    (slotBody fiveMinuteRes [⟨350, 0, 0, -1⟩, ⟨700, 1, 1, 1⟩] 300).2 = 300 ∧
    slotLoop fiveMinuteRes [⟨350, 0, 0, -1⟩, ⟨700, 1, 1, 1⟩] 5 300 [] =
      ⟨[], 300, 0, true⟩ := by
  with_unfolding_all decide

/-- C10 (amended): an iteration of the slot loop never decreases
`slot_start`; it fails to increase it only in the skip branch, when the
first buffered row after `slot_start` with a non-zero field lies inside
the current slot (its `time_slot` is `slot_start` itself) while the
slot's accumulated values are not positive. -/
theorem c10_cursor_monotone (res : Resolution) (h : GoodRes res)
    (buf : List SourceRow) (s : Nat) (hs : res.aligned s) :
    s ≤ (slotBody res buf s).2 ∧
    ((slotBody res buf s).2 = s →
      ∃ r, (buf.filter (afterNonzero s)).head? = some r ∧
        res.time_slot r.timestamp = s ∧
        ¬(0 < (slotSums buf s (res.time_slot_increment s 1)).1 ∨
          0 < (slotSums buf s (res.time_slot_increment s 1)).2.1 ∨
          0 < (slotSums buf s (res.time_slot_increment s 1)).2.2.1)) := by
  refine ⟨slotBody_next_ge res h buf s hs, ?_⟩
  intro he
  have hgt := h.incr_gt s 1 (by omega)
  by_cases hp : 0 < (slotSums buf s (res.time_slot_increment s 1)).1 ∨
      0 < (slotSums buf s (res.time_slot_increment s 1)).2.1 ∨
      0 < (slotSums buf s (res.time_slot_increment s 1)).2.2.1
  · simp only [slotBody, if_pos hp] at he
    omega
  · simp only [slotBody, if_neg hp] at he
    rcases hr : (buf.filter (afterNonzero s)).head? with _ | r
    · rw [hr] at he
      simp only at he
      omega
    · rw [hr] at he
      exact ⟨r, rfl, he, hp⟩

/-- Witness for the amended C10 at the counterexample input: the cursor
does not move, and the characterization names the row `(350,0,0,-1)`
inside the current slot. -/
theorem c10_cursor_monotone_witness :
    300 ≤ (slotBody fiveMinuteRes [⟨350, 0, 0, -1⟩, ⟨700, 1, 1, 1⟩] 300).2 ∧
    ((slotBody fiveMinuteRes [⟨350, 0, 0, -1⟩, ⟨700, 1, 1, 1⟩] 300).2 = 300 →
      ∃ r, (List.filter (afterNonzero 300) [⟨350, 0, 0, -1⟩, ⟨700, 1, 1, 1⟩]).head?
          = some r ∧
        fiveMinuteRes.time_slot r.timestamp = 300 ∧
        ¬(0 < (slotSums [⟨350, 0, 0, -1⟩, ⟨700, 1, 1, 1⟩] 300
            (fiveMinuteRes.time_slot_increment 300 1)).1 ∨
          0 < (slotSums [⟨350, 0, 0, -1⟩, ⟨700, 1, 1, 1⟩] 300
            (fiveMinuteRes.time_slot_increment 300 1)).2.1 ∨
          0 < (slotSums [⟨350, 0, 0, -1⟩, ⟨700, 1, 1, 1⟩] 300
            (fiveMinuteRes.time_slot_increment 300 1)).2.2.1)) :=
  c10_cursor_monotone fiveMinuteRes goodFiveMinute
    [⟨350, 0, 0, -1⟩, ⟨700, 1, 1, 1⟩] 300 (by rfl)

/-! ## Unfolding lemmas for whole calls -/

/-- With a nonempty source table, the rows appended by one call are the
rows produced by the slot loop over the scanned buffer (or nothing when
the scan raises). -/
theorem appendedRows_eq (res : Resolution) (db : DB) (b : Nat)
    (lastRow : SourceRow) (lastAgg : Nat)
    (hl : db.source.getLast? = some lastRow)
    (ha : getLastAggregateTimestamp res db = some lastAgg) :
    appendedRows res db b =
      match getSourceData res db.source lastRow.timestamp b
          (res.time_slot_increment lastAgg 1) [] with
      | .error _ => []
      | .ok (buf, b1, _) =>
        (slotLoop res buf b1 (res.time_slot_increment lastAgg 1) []).rows := by
  unfold appendedRows processAggregation
  rw [hl, ha]
  rcases hscan : getSourceData res db.source lastRow.timestamp b
      (res.time_slot_increment lastAgg 1) [] with e | ⟨buf, b1, se⟩ <;>
    simp [hscan]

/-- With an empty target table and a nonempty source table, the last
aggregate timestamp is the slot start of the first source row. -/
theorem getLastAggregateTimestamp_bootstrap (res : Resolution) (db : DB)
    (r : SourceRow) (rest : List SourceRow)
    (htarget : db.target = []) (hsource : db.source = r :: rest) :
    getLastAggregateTimestamp res db = some (res.time_slot r.timestamp) := by
  unfold getLastAggregateTimestamp
  rw [htarget, hsource]
  simp

/-! ## C1: the bootstrap cursor -/

/-- C1 counterexample: source rows at `0`, `400`, `700` (all positive)
with an empty `fiveminute` table.  `slot_start` of the first row is `0`,
but the initial cursor is `300` and the run appends only the row for slot
`[300, 600)`: the slot containing the first source row is never
processed, contradicting the claimed bootstrap. -/
theorem c1_counterexample :
    initialCursor fiveMinuteRes ⟨[⟨0, 1, 1, 1⟩, ⟨400, 1, 1, 1⟩, ⟨700, 1, 1, 1⟩], []⟩
      = some 300 ∧
    fiveMinuteTimeSlot 0 = 0 ∧
    appendedRows fiveMinuteRes ⟨[⟨0, 1, 1, 1⟩, ⟨400, 1, 1, 1⟩, ⟨700, 1, 1, 1⟩], []⟩ 10
      = [⟨300, 1, 1, 1⟩] := by
  with_unfolding_all decide

/-- C1 (amended): with an empty target table and a nonempty source
table, `process_aggregation` applies `time_slot_increment` to the
bootstrap timestamp as well (line 177), so aggregation begins at the slot
after the one containing the first source row; every appended row lies at
or after `advance(slot_start(first_row.timestamp))` and the first source
slot itself is skipped. -/
theorem c1_bootstrap_skips_first_slot (res : Resolution) (h : GoodRes res) (db : DB)
    (r : SourceRow) (rest : List SourceRow) (b : Nat)
    (htarget : db.target = []) (hsource : db.source = r :: rest) :
    initialCursor res db = some (res.time_slot_increment (res.time_slot r.timestamp) 1) ∧
    ∀ row ∈ appendedRows res db b,
      res.time_slot_increment (res.time_slot r.timestamp) 1 ≤ row.timestamp := by
  have hboot := getLastAggregateTimestamp_bootstrap res db r rest htarget hsource
  constructor
  · unfold initialCursor
    rw [hboot]
    simp
  · intro row hrow
    obtain ⟨lastRow, hl⟩ : ∃ lr, db.source.getLast? = some lr := by
      rcases he : db.source.getLast? with _ | lr
      · rw [List.getLast?_eq_none_iff] at he
        rw [he] at hsource
        exact absurd hsource (by simp)
      · exact ⟨lr, rfl⟩
    rw [appendedRows_eq res db b lastRow (res.time_slot r.timestamp) hl hboot] at hrow
    rcases hscan : getSourceData res db.source lastRow.timestamp b
        (res.time_slot_increment (res.time_slot r.timestamp) 1) [] with e | ⟨buf, b1, se⟩
    · rw [hscan] at hrow
      simp at hrow
    · rw [hscan] at hrow
      simp only at hrow
      have hal : res.aligned (res.time_slot_increment (res.time_slot r.timestamp) 1) :=
        h.incr_aligned _ 1 (h.ts_idem r.timestamp)
      exact (slotLoop_rows_mem res h buf b1 _ hal row hrow).2.1

/-- Witness for the amended C1 at the counterexample state. -/
theorem c1_bootstrap_skips_first_slot_witness :
    initialCursor fiveMinuteRes ⟨[⟨0, 1, 1, 1⟩, ⟨400, 1, 1, 1⟩, ⟨700, 1, 1, 1⟩], []⟩ =
      some (fiveMinuteRes.time_slot_increment (fiveMinuteRes.time_slot 0) 1) ∧
    ∀ row ∈ appendedRows fiveMinuteRes
        ⟨[⟨0, 1, 1, 1⟩, ⟨400, 1, 1, 1⟩, ⟨700, 1, 1, 1⟩], []⟩ 10,
      fiveMinuteRes.time_slot_increment (fiveMinuteRes.time_slot 0) 1 ≤ row.timestamp :=
  c1_bootstrap_skips_first_slot fiveMinuteRes goodFiveMinute
    ⟨[⟨0, 1, 1, 1⟩, ⟨400, 1, 1, 1⟩, ⟨700, 1, 1, 1⟩], []⟩
    ⟨0, 1, 1, 1⟩ [⟨400, 1, 1, 1⟩, ⟨700, 1, 1, 1⟩] 10 rfl rfl

/-! ## C2: the spec's end-to-end five-minute example -/

/-- C2: with `samples` containing exactly the two rows
`(t0=0, grid=100, solar=50, home=-40)` and `(t0+1min, grid=0, solar=60,
home=-30)` — both inside the five-minute slot `[0, 300)` — and an empty
`fiveminute` table, `process_aggregation` raises the unguarded
`IndexError` of `source_data[-1]` (line 132): the bootstrap cursor is
`300`, the fetch window `[300, 600300)` contains no row, and the
accumulated source data is empty.  No row `(0, 50, 55, -35)` is ever
inserted. -/
theorem c2_end_to_end_crashes :
    runError fiveMinuteRes ⟨[⟨0, 100, 50, -40⟩, ⟨60, 0, 60, -30⟩], []⟩ 10 =
      some "IndexError: list index out of range" ∧
    appendedRows fiveMinuteRes ⟨[⟨0, 100, 50, -40⟩, ⟨60, 0, 60, -30⟩], []⟩ 10 = [] ∧
    applyAgg fiveMinuteRes ⟨[⟨0, 100, 50, -40⟩, ⟨60, 0, 60, -30⟩], []⟩ 10 =
      ⟨[⟨0, 100, 50, -40⟩, ⟨60, 0, 60, -30⟩], []⟩ := by
  with_unfolding_all decide

/-! ## C4: the chunked scanner on an empty first window -/

/-- C4: when the 2000-slot window starting at the cursor contains no
source row (here: the only source row lies at `700000`, far beyond the
window `[300, 600300)`), `get_source_data` does not return the
accumulated (empty) row list — it raises `IndexError` from
`source_data[-1]` on an empty list. -/
theorem c4_scan_empty_window_crashes :
    scanError fiveMinuteRes [⟨700000, 1, 1, 1⟩] 700000 10 300 [] =
      some "IndexError: list index out of range" ∧
    runError fiveMinuteRes ⟨[⟨700000, 1, 1, 1⟩], [⟨0, 1, 1, 1⟩]⟩ 10 =
      some "IndexError: list index out of range" := by
  with_unfolding_all decide

/-! ## Sorted source tables -/

theorem srcSorted_ts_le_getLast (l : List SourceRow) (h : srcSorted l)
    (lastRow : SourceRow) (hl : l.getLast? = some lastRow) :
    ∀ r ∈ l, r.timestamp ≤ lastRow.timestamp := by
  induction l with
  | nil => simp at hl
  | cons a tl ih =>
    intro r hr
    rcases tl with _ | ⟨x, xs⟩
    · simp at hl
      simp at hr
      rw [hr, hl]
    · rw [List.getLast?_cons_cons] at hl
      unfold srcSorted at h
      rw [List.pairwise_cons] at h
      rcases List.mem_cons.mp hr with hr | hr
      · have hlm : lastRow ∈ x :: xs := List.mem_of_mem_getLast? (by rw [hl]; rfl)
        rw [hr]
        exact h.1 lastRow hlm
      · exact ih h.2 hl r hr

/-! ## The scanned buffer -/

/-- Every row returned by `get_source_data` comes from the accumulator or
from the source table. -/
theorem getSourceData_mem (res : Resolution) (source : List SourceRow) (lastSrc : Nat) :
    ∀ b s acc out, getSourceData res source lastSrc b s acc = .ok out →
      ∀ r ∈ out.1, r ∈ acc ∨ r ∈ source := by
  intro b
  induction b with
  | zero =>
    intro s acc out hout r hr
    unfold getSourceData at hout
    simp only [Except.ok.injEq] at hout
    rw [← hout] at hr
    exact Or.inl hr
  | succ b ih =>
    intro s acc out hout r hr
    have hacc : ∀ x ∈ acc ++ source.filter
        (tsBetween s (res.time_slot_increment s 2000)), x ∈ acc ∨ x ∈ source := by
      intro x hx
      rcases List.mem_append.mp hx with hx | hx
      · exact Or.inl hx
      · exact Or.inr (List.mem_of_mem_filter hx)
    simp only [getSourceData] at hout
    split at hout
    · exact absurd hout (by simp)
    · split at hout
      · simp only [Except.ok.injEq] at hout
        rw [← hout] at hr
        exact hacc r hr
      · split at hout
        · simp only [Except.ok.injEq] at hout
          rw [← hout] at hr
          exact hacc r hr
        · split at hout
          · rcases ih _ _ _ hout r hr with hin | hin
            · exact hacc r hin
            · exact Or.inr hin
          · simp only [Except.ok.injEq] at hout
            rw [← hout] at hr
            exact hacc r hr

/-! ## C7: no slot ending after the newest source timestamp -/

/-- In any state reachable by the engine, the last-aggregate timestamp
exists and is slot-aligned whenever the source table is nonempty. -/
theorem getLastAggregateTimestamp_aligned (res : Resolution) (h : GoodRes res)
    (db : DB) (htarget : ∀ row ∈ db.target, res.aligned row.timestamp)
    (hne : db.source ≠ []) :
    ∃ a, getLastAggregateTimestamp res db = some a ∧ res.aligned a := by
  unfold getLastAggregateTimestamp
  rcases ht : db.target.getLast? with _ | tr
  · rcases hh : db.source.head? with _ | hr
    · rw [List.head?_eq_none_iff] at hh
      exact absurd hh hne
    · exact ⟨res.time_slot hr.timestamp, by simp, h.ts_idem hr.timestamp⟩
  · refine ⟨tr.timestamp, rfl, ?_⟩
    exact htarget tr (List.mem_of_mem_getLast? (by rw [ht]; rfl))

/-- C7: in every reachable database state (source rows in timestamp
order, stored summary timestamps slot-aligned), no row appended by
`process_aggregation` has a slot end after the newest source timestamp. -/
theorem c7_no_future_slots (res : Resolution) (h : GoodRes res) (db : DB) (b : Nat)
    (hsorted : srcSorted db.source)
    (htarget : ∀ row ∈ db.target, res.aligned row.timestamp)
    (lastRow : SourceRow) (hl : db.source.getLast? = some lastRow) :
    ∀ row ∈ appendedRows res db b,
      res.time_slot_increment row.timestamp 1 ≤ lastRow.timestamp := by
  intro row hrow
  have hne : db.source ≠ [] := by
    intro he
    rw [he] at hl
    simp at hl
  obtain ⟨lastAgg, hla, hal⟩ := getLastAggregateTimestamp_aligned res h db htarget hne
  rw [appendedRows_eq res db b lastRow lastAgg hl hla] at hrow
  rcases hscan : getSourceData res db.source lastRow.timestamp b
      (res.time_slot_increment lastAgg 1) [] with e | ⟨buf, b1, se⟩
  · rw [hscan] at hrow
    simp at hrow
  · rw [hscan] at hrow
    simp only at hrow
    have hca : res.aligned (res.time_slot_increment lastAgg 1) := h.incr_aligned _ 1 hal
    obtain ⟨-, -, bufLast, hbl, hbound⟩ :=
      slotLoop_rows_mem res h buf b1 _ hca row hrow
    have hmem : bufLast ∈ buf := List.mem_of_mem_getLast? (by rw [hbl]; rfl)
    have hsrc : bufLast ∈ db.source := by
      rcases getSourceData_mem res db.source lastRow.timestamp b _ _ _ hscan
          bufLast hmem with hin | hin
      · simp at hin
      · exact hin
    have hle1 : res.time_slot bufLast.timestamp ≤ bufLast.timestamp :=
      h.ts_le bufLast.timestamp
    have hle2 : bufLast.timestamp ≤ lastRow.timestamp :=
      srcSorted_ts_le_getLast db.source hsorted lastRow hl bufLast hsrc
    omega

/-- Witness for C7: three positive samples at `0`, `400`, `700`; the one
appended row is for slot `[300, 600)`, which ends at `600 ≤ 700`. -/
theorem c7_no_future_slots_witness :
    srcSorted [(⟨0, 1, 1, 1⟩ : SourceRow), ⟨400, 1, 1, 1⟩, ⟨700, 1, 1, 1⟩] ∧
    ∀ row ∈ appendedRows fiveMinuteRes
        ⟨[⟨0, 1, 1, 1⟩, ⟨400, 1, 1, 1⟩, ⟨700, 1, 1, 1⟩], []⟩ 10,
      fiveMinuteRes.time_slot_increment row.timestamp 1 ≤ 700 :=
  ⟨by unfold srcSorted; simp,
   c7_no_future_slots fiveMinuteRes goodFiveMinute
    ⟨[⟨0, 1, 1, 1⟩, ⟨400, 1, 1, 1⟩, ⟨700, 1, 1, 1⟩], []⟩ 10
    (by unfold srcSorted; simp) (by simp) ⟨700, 1, 1, 1⟩ rfl⟩

/-! ## C5: re-invocation with no new source rows -/

set_option maxRecDepth 100000 in
/-- C5 counterexample: source rows at `0, 300, 600` and one row at
`600600` (slot 2002, beyond the first 2000-slot window), all positive,
empty target.  The first call appends only the row for slot `[300, 600)`
(the scan stops at its first window); the second call — with no new
source rows and no deadline pressure — appends the row for `[600, 900)`.
Re-invocation is not a no-op on the summary table. -/
theorem c5_counterexample :
    appendedRows fiveMinuteRes
        ⟨[⟨0, 1, 1, 1⟩, ⟨300, 1, 1, 1⟩, ⟨600, 1, 1, 1⟩, ⟨600600, 1, 1, 1⟩], []⟩ 10 =
      [⟨300, 1, 1, 1⟩] ∧
    runExpired fiveMinuteRes
        ⟨[⟨0, 1, 1, 1⟩, ⟨300, 1, 1, 1⟩, ⟨600, 1, 1, 1⟩, ⟨600600, 1, 1, 1⟩], []⟩ 10 =
      false ∧
    appendedRows fiveMinuteRes
        (applyAgg fiveMinuteRes
          ⟨[⟨0, 1, 1, 1⟩, ⟨300, 1, 1, 1⟩, ⟨600, 1, 1, 1⟩, ⟨600600, 1, 1, 1⟩], []⟩ 10) 10 =
      [⟨600, 1, 1, 1⟩] ∧
    runExpired fiveMinuteRes
        (applyAgg fiveMinuteRes
          ⟨[⟨0, 1, 1, 1⟩, ⟨300, 1, 1, 1⟩, ⟨600, 1, 1, 1⟩, ⟨600600, 1, 1, 1⟩], []⟩ 10) 10 =
      false := by
  with_unfolding_all decide

/-- When the loop condition fails at entry, the slot loop returns its
accumulator unchanged, for any budget. -/
theorem slotLoop_stop (res : Resolution) (buf : List SourceRow) (s : Nat)
    (hc : loopCond res buf s = false) :
    ∀ b acc, slotLoop res buf b s acc = ⟨acc, s, b, false⟩ := by
  intro b acc
  cases b with
  | zero =>
    unfold slotLoop
    simp [hc]
  | succ b =>
    unfold slotLoop
    simp [hc]

/-- C5 (amended): re-invocation appends no rows provided the previous
run caught up, i.e. the slot after the last stored summary row starts at
or after the slot of the newest source row.  (The counterexample shows
the unconditional claim fails when a backlog beyond one 2000-slot scan
window remains.) -/
theorem c5_noop_when_caught_up (res : Resolution) (h : GoodRes res) (db : DB) (b : Nat)
    (hsorted : srcSorted db.source)
    (tr : AggRow) (ht : db.target.getLast? = some tr)
    (lastRow : SourceRow) (hl : db.source.getLast? = some lastRow)
    (hcaught : res.time_slot lastRow.timestamp ≤ res.time_slot_increment tr.timestamp 1) :
    applyAgg res db b = db := by
  have hla : getLastAggregateTimestamp res db = some tr.timestamp := by
    unfold getLastAggregateTimestamp
    rw [ht]
  have hrows : appendedRows res db b = [] := by
    rw [appendedRows_eq res db b lastRow tr.timestamp hl hla]
    rcases hscan : getSourceData res db.source lastRow.timestamp b
        (res.time_slot_increment tr.timestamp 1) [] with e | ⟨buf, b1, se⟩
    · rfl
    · simp only
      have hc : loopCond res buf (res.time_slot_increment tr.timestamp 1) = false := by
        unfold loopCond
        rcases hbl : buf.getLast? with _ | bl
        · rfl
        · simp only [decide_eq_false_iff_not, not_lt]
          have hmem : bl ∈ buf := List.mem_of_mem_getLast? (by rw [hbl]; rfl)
          have hsrc : bl ∈ db.source := by
            rcases getSourceData_mem res db.source lastRow.timestamp b _ _ _ hscan
                bl hmem with hin | hin
            · simp at hin
            · exact hin
          have h1 : bl.timestamp ≤ lastRow.timestamp :=
            srcSorted_ts_le_getLast db.source hsorted lastRow hl bl hsrc
          have h2 : res.time_slot bl.timestamp ≤ res.time_slot lastRow.timestamp :=
            h.ts_mono _ _ h1
          omega
      rw [slotLoop_stop res buf _ hc b1 []]
  unfold applyAgg
  rw [hrows]
  simp

/-- Witness for the amended C5: target caught up at slot `300`, newest
sample at `700` (slot `600 = advance(300)`); the call appends nothing. -/
theorem c5_noop_when_caught_up_witness :
    applyAgg fiveMinuteRes
        ⟨[⟨0, 1, 1, 1⟩, ⟨400, 1, 1, 1⟩, ⟨700, 1, 1, 1⟩], [⟨300, 1, 1, 1⟩]⟩ 10 =
      ⟨[⟨0, 1, 1, 1⟩, ⟨400, 1, 1, 1⟩, ⟨700, 1, 1, 1⟩], [⟨300, 1, 1, 1⟩]⟩ :=
  c5_noop_when_caught_up fiveMinuteRes goodFiveMinute
    ⟨[⟨0, 1, 1, 1⟩, ⟨400, 1, 1, 1⟩, ⟨700, 1, 1, 1⟩], [⟨300, 1, 1, 1⟩]⟩ 10
    (by unfold srcSorted; simp) ⟨300, 1, 1, 1⟩ rfl ⟨700, 1, 1, 1⟩ rfl (by decide)

/-! ## C6: resumability

The development below analyses a whole `process_aggregation` call when
every source row lies inside the first 2000-slot scan window of the
call, so that the scan always returns the source suffix from the cursor
in a single window fetch. -/

/-- Under the single-window hypothesis the fetched window is the whole
source suffix from the cursor. -/
theorem window_eq_rowsFrom (res : Resolution) (source : List SourceRow) (s : Nat)
    (hW : ∀ r ∈ source, r.timestamp < res.time_slot_increment s 2000) :
    source.filter (tsBetween s (res.time_slot_increment s 2000)) = rowsFrom source s := by
  unfold rowsFrom
  refine List.filter_congr ?_
  intro r hr
  unfold tsBetween
  have := hW r hr
  simp [this]

/-- Scan, empty-suffix case: the fetch is empty and `source_data[-1]`
raises. -/
theorem getSourceData_single_window_err (res : Resolution) (source : List SourceRow)
    (lastSrc : Nat) (b s : Nat)
    (hW : ∀ r ∈ source, r.timestamp < res.time_slot_increment s 2000)
    (hemp : rowsFrom source s = []) :
    getSourceData res source lastSrc (b + 1) s [] =
      .error "IndexError: list index out of range" := by
  simp only [getSourceData, List.nil_append, window_eq_rowsFrom res source s hW, hemp]
  rfl

/-- Scan, nonempty-suffix case: one window fetch returns the whole
suffix and the scan stops (sufficient data, or end of source reached). -/
theorem getSourceData_single_window_ok (res : Resolution) (source : List SourceRow)
    (hsorted : srcSorted source) (sigma : SourceRow)
    (hl : source.getLast? = some sigma) (b s : Nat)
    (hW : ∀ r ∈ source, r.timestamp < res.time_slot_increment s 2000)
    (hne : rowsFrom source s ≠ []) :
    getSourceData res source sigma.timestamp (b + 1) s [] =
      .ok (rowsFrom source s, b, false) := by
  obtain ⟨bl, hbl⟩ : ∃ bl, (rowsFrom source s).getLast? = some bl := by
    rcases he : (rowsFrom source s).getLast? with _ | bl
    · rw [List.getLast?_eq_none_iff] at he
      exact absurd he hne
    · exact ⟨bl, rfl⟩
  have hsig : sigma.timestamp ≤ bl.timestamp := by
    obtain ⟨x, hx⟩ : ∃ x, x ∈ rowsFrom source s := by
      rcases hq : rowsFrom source s with _ | ⟨x, xs⟩
      · exact absurd hq hne
      · exact ⟨x, hq ▸ List.mem_cons_self x xs⟩
    have hxs : x ∈ source := List.mem_of_mem_filter hx
    have hxge : s ≤ x.timestamp := by
      have := List.of_mem_filter hx
      simpa using this
    have hsgx : x.timestamp ≤ sigma.timestamp :=
      srcSorted_ts_le_getLast source hsorted sigma hl x hxs
    have hsigmem : sigma ∈ rowsFrom source s := by
      unfold rowsFrom
      refine List.mem_filter.mpr ⟨List.mem_of_mem_getLast? (by rw [hl]; rfl), ?_⟩
      simp
      omega
    have hsortedF : srcSorted (rowsFrom source s) := List.Pairwise.filter _ hsorted
    exact srcSorted_ts_le_getLast (rowsFrom source s) hsortedF bl hbl sigma hsigmem
  by_cases h1 : res.time_slot_increment s 1 ≤ bl.timestamp
  · simp only [getSourceData, List.nil_append, window_eq_rowsFrom res source s hW, hbl,
      if_pos h1]
  · simp only [getSourceData, List.nil_append, window_eq_rowsFrom res source s hW, hbl,
      if_neg h1, if_pos hsig]

/-- Splitting the source suffix at a later cursor: for a sorted source,
the rows from `c1` are the rows in `[c1, c2)` followed by the rows from
`c2`. -/
theorem rowsFrom_split (source : List SourceRow) (hsorted : srcSorted source)
    (c1 c2 : Nat) (hc : c1 ≤ c2) :
    ∃ pre, rowsFrom source c1 = pre ++ rowsFrom source c2 ∧
      ∀ x ∈ pre, x.timestamp < c2 := by
  refine ⟨(rowsFrom source c1).filter (fun r => decide (r.timestamp < c2)), ?_, ?_⟩
  · have hsplit : ∀ (l : List SourceRow), srcSorted l →
        l = l.filter (fun r => decide (r.timestamp < c2)) ++
          l.filter (fun r => decide (c2 ≤ r.timestamp)) := by
      intro l hsl
      induction l with
      | nil => simp
      | cons a tl ih =>
        unfold srcSorted at hsl
        rw [List.pairwise_cons] at hsl
        rcases Nat.lt_or_ge a.timestamp c2 with ha | ha
        · rw [List.filter_cons_of_pos (by simpa using ha),
            List.filter_cons_of_neg (by simpa using ha)]
          rw [List.cons_append]
          rw [← ih hsl.2]
        · rw [List.filter_cons_of_neg (by simpa using ha),
            List.filter_cons_of_pos (by simpa using ha)]
          have h1 : tl.filter (fun r => decide (r.timestamp < c2)) = [] := by
            rw [List.filter_eq_nil_iff]
            intro x hx
            have := hsl.1 x hx
            simp
            omega
          have h2 : tl.filter (fun r => decide (c2 ≤ r.timestamp)) = tl := by
            rw [List.filter_eq_self]
            intro x hx
            have := hsl.1 x hx
            simp
            omega
          rw [h1, h2]
          simp
    have hrec : (rowsFrom source c1).filter (fun r => decide (c2 ≤ r.timestamp)) =
        rowsFrom source c2 := by
      unfold rowsFrom
      rw [List.filter_filter]
      refine List.filter_congr ?_
      intro r hr
      by_cases h2 : c2 ≤ r.timestamp
      · simp [h2]
        omega
      · simp [h2]
    have := hsplit (rowsFrom source c1) (List.Pairwise.filter _ hsorted)
    rw [hrec] at this
    exact this
  · intro x hx
    have := List.of_mem_filter hx
    simpa using this

/-- The loop condition fails when every buffered row's slot starts at or
before the cursor. -/
theorem loopCond_eq_false (res : Resolution) (buf : List SourceRow) (s : Nat)
    (hall : ∀ x ∈ buf, res.time_slot x.timestamp ≤ s) :
    loopCond res buf s = false := by
  unfold loopCond
  rcases hbl : buf.getLast? with _ | bl
  · rfl
  · have hmem : bl ∈ buf := List.mem_of_mem_getLast? (by rw [hbl]; rfl)
    have := hall bl hmem
    simp only [decide_eq_false_iff_not, not_lt]
    omega

theorem slotLoop_zero (res : Resolution) (buf : List SourceRow) (s : Nat)
    (acc : List AggRow) :
    slotLoop res buf 0 s acc =
      if loopCond res buf s then ⟨acc, s, 0, true⟩ else ⟨acc, s, 0, false⟩ := rfl

theorem slotLoop_succ (res : Resolution) (buf : List SourceRow) (b s : Nat)
    (acc : List AggRow) :
    slotLoop res buf (b + 1) s acc =
      if loopCond res buf s then
        slotLoop res buf b (slotBody res buf s).2 (acc ++ (slotBody res buf s).1.toList)
      else ⟨acc, s, b + 1, false⟩ := rfl

/-- When the body appends a row, the next cursor is `advance(slot_start)`. -/
theorem slotBody_some_next (res : Resolution) (buf : List SourceRow) (s : Nat)
    (q : AggRow) (hq : (slotBody res buf s).1 = some q) :
    (slotBody res buf s).2 = res.time_slot_increment s 1 := by
  simp only [slotBody] at hq ⊢
  split at hq
  · rename_i hp
    rw [if_pos hp]
  · simp at hq

/-- The next cursor stays at or above any aligned lower bound of the
current cursor. -/
theorem slotBody_next_ge_of_le (res : Resolution) (h : GoodRes res)
    (buf : List SourceRow) (s c2 : Nat) (hal : res.aligned c2) (hcs : c2 ≤ s) :
    c2 ≤ (slotBody res buf s).2 := by
  simp only [slotBody]
  split
  · have := h.incr_gt s 1 (by omega)
    omega
  · show c2 ≤ (match (buf.filter (afterNonzero s)).head? with
      | some r => res.time_slot r.timestamp
      | none => res.time_slot_increment s 1)
    split
    · rename_i r hr
      have hmem := head?_mem_list hr
      have hfil := List.of_mem_filter hmem
      unfold afterNonzero at hfil
      simp only [Bool.and_eq_true, decide_eq_true_eq] at hfil
      have h1 : res.time_slot c2 ≤ res.time_slot r.timestamp :=
        h.ts_mono c2 r.timestamp (by omega)
      rw [hal] at h1
      exact h1
    · have := h.incr_gt s 1 (by omega)
      omega

/-- A prefix of rows strictly before the cursor is invisible to the slot
body. -/
theorem slotBody_pre (res : Resolution) (pre B2 : List SourceRow) (s : Nat)
    (hpre : ∀ x ∈ pre, x.timestamp < s) :
    slotBody res (pre ++ B2) s = slotBody res B2 s := by
  have hfil1 : ∀ (e : Nat), (pre ++ B2).filter (tsBetween s e) = B2.filter (tsBetween s e) := by
    intro e
    rw [List.filter_append]
    have : pre.filter (tsBetween s e) = [] := by
      rw [List.filter_eq_nil_iff]
      intro x hx
      unfold tsBetween
      have := hpre x hx
      simp
      omega
    rw [this, List.nil_append]
  have hfil2 : (pre ++ B2).filter (afterNonzero s) = B2.filter (afterNonzero s) := by
    rw [List.filter_append]
    have : pre.filter (afterNonzero s) = [] := by
      rw [List.filter_eq_nil_iff]
      intro x hx
      unfold afterNonzero
      have := hpre x hx
      simp
      omega
    rw [this, List.nil_append]
  simp only [slotBody, slotSums, hfil1, hfil2]

/-- A prefix of rows strictly before an aligned cursor bound is
invisible to the whole slot loop. -/
theorem slotLoop_pre (res : Resolution) (h : GoodRes res) (pre B2 : List SourceRow)
    (c2 : Nat) (hal : res.aligned c2) (hpre : ∀ x ∈ pre, x.timestamp < c2) :
    ∀ b s acc, c2 ≤ s → slotLoop res (pre ++ B2) b s acc = slotLoop res B2 b s acc := by
  have hcond_eq : ∀ s, c2 ≤ s →
      loopCond res (pre ++ B2) s = loopCond res B2 s := by
    intro s hcs
    by_cases hB2 : B2 = []
    · subst hB2
      have hc1 : loopCond res (pre ++ []) s = false := by
        refine loopCond_eq_false res _ s ?_
        intro x hx
        rw [List.append_nil] at hx
        have h1 := hpre x hx
        have h2 := h.ts_le x.timestamp
        omega
      rw [hc1]
      rfl
    · obtain ⟨bl, hbl⟩ : ∃ bl, B2.getLast? = some bl := by
        rcases he : B2.getLast? with _ | bl
        · rw [List.getLast?_eq_none_iff] at he
          exact absurd he hB2
        · exact ⟨bl, rfl⟩
      unfold loopCond
      rw [List.getLast?_append, hbl, Option.or_some]
  intro b
  induction b with
  | zero =>
    intro s acc hcs
    rw [slotLoop_zero, slotLoop_zero, hcond_eq s hcs]
  | succ b ih =>
    intro s acc hcs
    have hpre2 : ∀ x ∈ pre, x.timestamp < s := by
      intro x hx
      have := hpre x hx
      omega
    rw [slotLoop_succ, slotLoop_succ, hcond_eq s hcs, slotBody_pre res pre B2 s hpre2]
    by_cases hcond : loopCond res B2 s = true
    · rw [if_pos hcond, if_pos hcond]
      exact ih (slotBody res B2 s).2 _ (slotBody_next_ge_of_le res h B2 s c2 hal hcs)
    · rw [if_neg hcond, if_neg hcond]

/-- Running with more budget after an expired run continues from the
state where the deadline struck. -/
theorem slotLoop_expired_extend (res : Resolution) (buf : List SourceRow) :
    ∀ b s acc, (slotLoop res buf b s acc).expired = true →
      ∀ k, slotLoop res buf (b + k) s acc =
        slotLoop res buf k (slotLoop res buf b s acc).slot
          (slotLoop res buf b s acc).rows := by
  intro b
  induction b with
  | zero =>
    intro s acc hexp k
    rw [Nat.zero_add]
    by_cases hc : loopCond res buf s = true
    · rw [slotLoop_zero, if_pos hc]
    · rw [slotLoop_zero, if_neg hc] at hexp
      simp at hexp
  | succ b ih =>
    intro s acc hexp k
    by_cases hc : loopCond res buf s = true
    · rw [slotLoop_succ, if_pos hc] at hexp ⊢
      have harith : b + 1 + k = (b + k) + 1 := by omega
      rw [harith, slotLoop_succ, if_pos hc]
      exact ih _ _ hexp k
    · rw [slotLoop_succ, if_neg hc] at hexp
      simp at hexp

/-- Extra budget after an unexpired run changes nothing but the
remaining budget. -/
theorem slotLoop_unexpired_extend (res : Resolution) (buf : List SourceRow) :
    ∀ b s acc, (slotLoop res buf b s acc).expired = false →
      ∀ k, slotLoop res buf (b + k) s acc =
        ⟨(slotLoop res buf b s acc).rows, (slotLoop res buf b s acc).slot,
         (slotLoop res buf b s acc).left + k, false⟩ := by
  intro b
  induction b with
  | zero =>
    intro s acc hexp k
    rw [Nat.zero_add]
    by_cases hc : loopCond res buf s = true
    · rw [slotLoop_zero, if_pos hc] at hexp
      simp at hexp
    · have hstop := slotLoop_stop res buf s (by simpa using hc)
      rw [hstop k acc, hstop 0 acc]
      simp
  | succ b ih =>
    intro s acc hexp k
    by_cases hc : loopCond res buf s = true
    · rw [slotLoop_succ, if_pos hc] at hexp ⊢
      have harith : b + 1 + k = (b + k) + 1 := by omega
      rw [harith, slotLoop_succ, if_pos hc]
      exact ih _ _ hexp k
    · have hstop := slotLoop_stop res buf s (by simpa using hc)
      rw [hstop (b + 1 + k) acc, hstop (b + 1) acc]

/-- Any two unexpired runs from the same state agree on everything but
the remaining budget. -/
theorem slotLoop_unexpired_agree (res : Resolution) (buf : List SourceRow)
    (s : Nat) (acc : List AggRow) : ∀ b1 b2,
    (slotLoop res buf b1 s acc).expired = false →
    (slotLoop res buf b2 s acc).expired = false →
    (slotLoop res buf b1 s acc).rows = (slotLoop res buf b2 s acc).rows ∧
    (slotLoop res buf b1 s acc).slot = (slotLoop res buf b2 s acc).slot := by
  have key : ∀ bx bz, bx ≤ bz → (slotLoop res buf bx s acc).expired = false →
      slotLoop res buf bz s acc =
        ⟨(slotLoop res buf bx s acc).rows, (slotLoop res buf bx s acc).slot,
         (slotLoop res buf bx s acc).left + (bz - bx), false⟩ := by
    intro bx bz hle hexp
    have h1 := slotLoop_unexpired_extend res buf bx s acc hexp (bz - bx)
    rw [show bx + (bz - bx) = bz by omega] at h1
    exact h1
  intro b1 b2 h1 h2
  rcases Nat.le_total b1 b2 with hle | hle
  · rw [key b1 b2 hle h1]
    exact ⟨rfl, rfl⟩
  · rw [key b2 b1 hle h2]
    exact ⟨rfl, rfl⟩

/-- Resuming after an appended row: if a loop run appends
`R1 ++ p :: R2`, then a loop started at `advance(p.timestamp)` with a
suitable budget produces exactly `R2` and ends in the same state. -/
theorem slotLoop_resume (res : Resolution) (buf : List SourceRow) :
    ∀ b s R1 p R2, (slotLoop res buf b s []).rows = R1 ++ p :: R2 →
      ∃ b2, b2 ≤ b ∧
        slotLoop res buf b2 (res.time_slot_increment p.timestamp 1) [] =
          ⟨R2, (slotLoop res buf b s []).slot, (slotLoop res buf b s []).left,
           (slotLoop res buf b s []).expired⟩ := by
  intro b
  induction b with
  | zero =>
    intro s R1 p R2 hrows
    by_cases hc : loopCond res buf s = true
    · rw [slotLoop_zero, if_pos hc] at hrows
      have hfalse : ([] : List AggRow) = R1 ++ p :: R2 := hrows
      simp at hfalse
    · rw [slotLoop_zero, if_neg hc] at hrows
      have hfalse : ([] : List AggRow) = R1 ++ p :: R2 := hrows
      simp at hfalse
  | succ b ih =>
    intro s R1 p R2 hrows
    by_cases hc : loopCond res buf s = true
    · rw [slotLoop_succ, if_pos hc] at hrows ⊢
      rw [slotLoop_acc res buf b (slotBody res buf s).2
        ([] ++ (slotBody res buf s).1.toList)] at hrows ⊢
      simp only [List.nil_append] at hrows ⊢
      rcases hbody : (slotBody res buf s).1 with _ | q
      · rw [hbody] at hrows
        simp only [Option.toList_none, List.nil_append] at hrows
        obtain ⟨b2, hb2, heq⟩ := ih (slotBody res buf s).2 R1 p R2 hrows
        exact ⟨b2, by omega, heq⟩
      · rw [hbody] at hrows
        simp only [Option.toList_some, List.singleton_append] at hrows
        have hnext := slotBody_some_next res buf s q hbody
        have hts := slotBody_row_eq res buf s q hbody
        rcases R1 with _ | ⟨q', R1'⟩
        · simp only [List.nil_append, List.cons.injEq] at hrows
          obtain ⟨hqp, hrest⟩ := hrows
          refine ⟨b, by omega, ?_⟩
          have h1 : res.time_slot_increment p.timestamp 1 = (slotBody res buf s).2 := by
            rw [← hqp, hts, hnext]
          rw [h1, ← hrest]
        · simp only [List.cons_append, List.cons.injEq] at hrows
          obtain ⟨hqq, hrest⟩ := hrows
          obtain ⟨b2, hb2, heq⟩ := ih (slotBody res buf s).2 R1' p R2 hrest
          exact ⟨b2, by omega, heq⟩
    · rw [slotLoop_succ, if_neg hc] at hrows
      have hfalse : ([] : List AggRow) = R1 ++ p :: R2 := hrows
      simp at hfalse

/-- A call whose scan returns. -/
theorem processAggregation_ok_char (res : Resolution) (db : DB) (b : Nat)
    (lastRow : SourceRow) (lastAgg : Nat) (buf : List SourceRow) (bleft : Nat)
    (sExp : Bool)
    (hl : db.source.getLast? = some lastRow)
    (ha : getLastAggregateTimestamp res db = some lastAgg)
    (hscan : getSourceData res db.source lastRow.timestamp b
      (res.time_slot_increment lastAgg 1) [] = .ok (buf, bleft, sExp)) :
    processAggregation res db b =
      .ok ((slotLoop res buf bleft (res.time_slot_increment lastAgg 1) []).rows,
        (slotLoop res buf bleft (res.time_slot_increment lastAgg 1) []).left,
        sExp || (slotLoop res buf bleft (res.time_slot_increment lastAgg 1) []).expired) := by
  unfold processAggregation
  rw [hl, ha]
  simp only [hscan]

/-- A call whose scan raises. -/
theorem processAggregation_err_char (res : Resolution) (db : DB) (b : Nat)
    (lastRow : SourceRow) (lastAgg : Nat) (e : String)
    (hl : db.source.getLast? = some lastRow)
    (ha : getLastAggregateTimestamp res db = some lastAgg)
    (hscan : getSourceData res db.source lastRow.timestamp b
      (res.time_slot_increment lastAgg 1) [] = .error e) :
    processAggregation res db b = .error e := by
  unfold processAggregation
  rw [hl, ha]
  simp only [hscan]

/-- An expired deadline at entry makes the scan return nothing at once. -/
theorem getSourceData_zero (res : Resolution) (source : List SourceRow)
    (lastSrc s : Nat) (acc : List SourceRow) :
    getSourceData res source lastSrc 0 s acc = .ok (acc, 0, true) := rfl

/-- With a nonempty source, a zero-budget call reports an expired
deadline. -/
theorem runExpired_zero_budget (res : Resolution) (db : DB)
    (lastRow : SourceRow) (lastAgg : Nat)
    (hl : db.source.getLast? = some lastRow)
    (ha : getLastAggregateTimestamp res db = some lastAgg) :
    runExpired res db 0 = true := by
  unfold runExpired
  rw [processAggregation_ok_char res db 0 lastRow lastAgg [] 0 true hl ha
    (getSourceData_zero res db.source lastRow.timestamp _ [])]
  simp

/-- `applyAgg` keeps the source table. -/
theorem applyAgg_source (res : Resolution) (db : DB) (b : Nat) :
    (applyAgg res db b).source = db.source := rfl

/-- `applyAgg` appends the appended rows to the target table. -/
theorem applyAgg_target (res : Resolution) (db : DB) (b : Nat) :
    (applyAgg res db b).target = db.target ++ appendedRows res db b := rfl

/-- Loop-level composition: an interrupted run over the full buffer,
resumed from the slot after its last appended row over the suffix
buffer, appends in total exactly what one unexpired run appends. -/
theorem slotLoop_two_runs (res : Resolution) (h : GoodRes res)
    (source : List SourceRow) (hsorted : srcSorted source)
    (c0 : Nat) (hc0 : res.aligned c0) (b1 b2 b3 : Nat)
    (hexp2 : (slotLoop res (rowsFrom source c0) b2 c0 []).expired = false)
    (A' : List AggRow) (p : AggRow)
    (hA : (slotLoop res (rowsFrom source c0) b1 c0 []).rows = A' ++ [p])
    (hexp3 : (slotLoop res (rowsFrom source (res.time_slot_increment p.timestamp 1)) b3
        (res.time_slot_increment p.timestamp 1) []).expired = false) :
    (A' ++ [p]) ++
        (slotLoop res (rowsFrom source (res.time_slot_increment p.timestamp 1)) b3
          (res.time_slot_increment p.timestamp 1) []).rows =
      (slotLoop res (rowsFrom source c0) b2 c0 []).rows := by
  have hpmem : p ∈ (slotLoop res (rowsFrom source c0) b1 c0 []).rows := by
    rw [hA]
    exact List.mem_append.mpr (Or.inr (by simp))
  obtain ⟨hpal, hpc0, -⟩ :=
    slotLoop_rows_mem res h (rowsFrom source c0) b1 c0 hc0 p hpmem
  have hc2al : res.aligned (res.time_slot_increment p.timestamp 1) :=
    h.incr_aligned _ 1 hpal
  have hc0c2 : c0 ≤ res.time_slot_increment p.timestamp 1 := by
    have := h.incr_gt p.timestamp 1 (by omega)
    omega
  have hstep1 : ∃ C, (slotLoop res (rowsFrom source c0) b2 c0 []).rows =
      (A' ++ [p]) ++ C := by
    by_cases hexp1 : (slotLoop res (rowsFrom source c0) b1 c0 []).expired = true
    · have hlt : b1 < b2 := by
        by_contra hge
        have hle : b2 ≤ b1 := by omega
        have hext := slotLoop_unexpired_extend res (rowsFrom source c0) b2 c0 [] hexp2
          (b1 - b2)
        rw [show b2 + (b1 - b2) = b1 by omega] at hext
        rw [hext] at hexp1
        simp at hexp1
      have hk := slotLoop_expired_extend res (rowsFrom source c0) b1 c0 [] hexp1 (b2 - b1)
      rw [show b1 + (b2 - b1) = b2 by omega] at hk
      refine ⟨(slotLoop res (rowsFrom source c0) (b2 - b1)
        (slotLoop res (rowsFrom source c0) b1 c0 []).slot []).rows, ?_⟩
      rw [hk, slotLoop_acc res (rowsFrom source c0) (b2 - b1)
        (slotLoop res (rowsFrom source c0) b1 c0 []).slot
        (slotLoop res (rowsFrom source c0) b1 c0 []).rows]
      rw [hA]
    · have hagree := slotLoop_unexpired_agree res (rowsFrom source c0) c0 [] b1 b2
        (by simpa using hexp1) hexp2
      refine ⟨[], ?_⟩
      rw [List.append_nil, ← hA]
      exact hagree.1.symm
  obtain ⟨C, hC⟩ := hstep1
  have hC2 : (slotLoop res (rowsFrom source c0) b2 c0 []).rows = A' ++ p :: C := by
    rw [hC, List.append_assoc, List.singleton_append]
  obtain ⟨bb, hbb, hres⟩ := slotLoop_resume res (rowsFrom source c0) b2 c0 A' p C hC2
  obtain ⟨pre, hsplitEq, hpre⟩ := rowsFrom_split source hsorted c0
    (res.time_slot_increment p.timestamp 1) hc0c2
  have hres2 : slotLoop res (rowsFrom source (res.time_slot_increment p.timestamp 1)) bb
      (res.time_slot_increment p.timestamp 1) [] =
      ⟨C, (slotLoop res (rowsFrom source c0) b2 c0 []).slot,
       (slotLoop res (rowsFrom source c0) b2 c0 []).left,
       (slotLoop res (rowsFrom source c0) b2 c0 []).expired⟩ := by
    rw [← slotLoop_pre res h pre
      (rowsFrom source (res.time_slot_increment p.timestamp 1))
      (res.time_slot_increment p.timestamp 1) hc2al hpre bb
      (res.time_slot_increment p.timestamp 1) [] (Nat.le_refl _), ← hsplitEq]
    exact hres
  have hbbexp : (slotLoop res (rowsFrom source (res.time_slot_increment p.timestamp 1)) bb
      (res.time_slot_increment p.timestamp 1) []).expired = false := by
    rw [hres2]
    exact hexp2
  have hbbrows : (slotLoop res (rowsFrom source (res.time_slot_increment p.timestamp 1)) bb
      (res.time_slot_increment p.timestamp 1) []).rows = C := by
    rw [hres2]
  have hagree2 := slotLoop_unexpired_agree res
    (rowsFrom source (res.time_slot_increment p.timestamp 1))
    (res.time_slot_increment p.timestamp 1) [] b3 bb hexp3 hbbexp
  rw [hagree2.1, hbbrows, hC]

theorem DB_ext (d1 d2 : DB) (hs : d1.source = d2.source) (ht : d1.target = d2.target) :
    d1 = d2 := by
  cases d1
  cases d2
  simp only at hs ht
  rw [hs, ht]

/-- C6 (amended): when every source row lies inside the initial
2000-slot scan window of the bootstrap cursor, running once with any
deadline budget and then once more with an unexpired deadline yields the
same final summary table as a single run with an unexpired deadline.
(The counterexample shows this fails as soon as source rows extend past
the first scan window: a resumed run's shifted window reaches farther
than the single run's.) -/
theorem c6_resume_single_window (res : Resolution) (h : GoodRes res) (db : DB)
    (b b2 b3 : Nat) (hsorted : srcSorted db.source) (htarget : db.target = [])
    (r0 : SourceRow) (rest : List SourceRow) (hsource : db.source = r0 :: rest)
    (hW : ∀ r ∈ db.source, r.timestamp <
      res.time_slot_increment (res.time_slot_increment (res.time_slot r0.timestamp) 1) 2000)
    (hb2 : runExpired res db b2 = false)
    (hb3 : runExpired res (applyAgg res db b) b3 = false) :
    applyAgg res (applyAgg res db b) b3 = applyAgg res db b2 := by
  obtain ⟨sigma, hl⟩ : ∃ sg, db.source.getLast? = some sg := by
    rcases he : db.source.getLast? with _ | sg
    · rw [List.getLast?_eq_none_iff] at he
      rw [hsource] at he
      exact absurd he (by simp)
    · exact ⟨sg, rfl⟩
  have hla := getLastAggregateTimestamp_bootstrap res db r0 rest htarget hsource
  have hc0al : res.aligned (res.time_slot_increment (res.time_slot r0.timestamp) 1) :=
    h.incr_aligned _ 1 (h.ts_idem r0.timestamp)
  rcases b2 with _ | b2'
  · rw [runExpired_zero_budget res db sigma _ hl hla] at hb2
    simp at hb2
  have hzero : appendedRows res db 0 = [] := by
    unfold appendedRows
    rw [processAggregation_ok_char res db 0 sigma _ [] 0 true hl hla
      (getSourceData_zero res db.source sigma.timestamp _ [])]
    rfl
  by_cases hB0 : rowsFrom db.source
      (res.time_slot_increment (res.time_slot r0.timestamp) 1) = []
  · have herr : ∀ bx, appendedRows res db (bx + 1) = [] := by
      intro bx
      unfold appendedRows
      rw [processAggregation_err_char res db (bx + 1) sigma _ _ hl hla
        (getSourceData_single_window_err res db.source sigma.timestamp bx _ hW hB0)]
    have hA : appendedRows res db b = [] := by
      cases b with
      | zero => exact hzero
      | succ b1 => exact herr b1
    have hdb2 : applyAgg res db b = db := by
      unfold applyAgg
      rw [hA, List.append_nil]
    rw [hdb2] at hb3 ⊢
    rcases b3 with _ | b3'
    · rw [runExpired_zero_budget res db sigma _ hl hla] at hb3
      simp at hb3
    · unfold applyAgg
      rw [herr b3', herr b2']
  · have hscan0 : ∀ bx, getSourceData res db.source sigma.timestamp (bx + 1)
        (res.time_slot_increment (res.time_slot r0.timestamp) 1) [] =
        .ok (rowsFrom db.source (res.time_slot_increment (res.time_slot r0.timestamp) 1),
          bx, false) :=
      fun bx => getSourceData_single_window_ok res db.source hsorted sigma hl bx _ hW hB0
    have hrows : ∀ bx, appendedRows res db (bx + 1) =
        (slotLoop res
          (rowsFrom db.source (res.time_slot_increment (res.time_slot r0.timestamp) 1)) bx
          (res.time_slot_increment (res.time_slot r0.timestamp) 1) []).rows := by
      intro bx
      unfold appendedRows
      rw [processAggregation_ok_char res db (bx + 1) sigma _ _ bx false hl hla (hscan0 bx)]
    have hexpch : ∀ bx, runExpired res db (bx + 1) =
        (slotLoop res
          (rowsFrom db.source (res.time_slot_increment (res.time_slot r0.timestamp) 1)) bx
          (res.time_slot_increment (res.time_slot r0.timestamp) 1) []).expired := by
      intro bx
      unfold runExpired
      rw [processAggregation_ok_char res db (bx + 1) sigma _ _ bx false hl hla (hscan0 bx)]
      simp
    have hexp2 : (slotLoop res
        (rowsFrom db.source (res.time_slot_increment (res.time_slot r0.timestamp) 1)) b2'
        (res.time_slot_increment (res.time_slot r0.timestamp) 1) []).expired = false := by
      rw [← hexpch b2']
      exact hb2
    by_cases hAe : appendedRows res db b = []
    · have hdb2 : applyAgg res db b = db := by
        unfold applyAgg
        rw [hAe, List.append_nil]
      rw [hdb2] at hb3 ⊢
      rcases b3 with _ | b3'
      · rw [runExpired_zero_budget res db sigma _ hl hla] at hb3
        simp at hb3
      · have hexp3 : (slotLoop res
            (rowsFrom db.source (res.time_slot_increment (res.time_slot r0.timestamp) 1)) b3'
            (res.time_slot_increment (res.time_slot r0.timestamp) 1) []).expired = false := by
          rw [← hexpch b3']
          exact hb3
        unfold applyAgg
        rw [hrows b3', hrows b2',
          (slotLoop_unexpired_agree res _ _ [] b3' b2' hexp3 hexp2).1]
    · rcases b with _ | b1
      · exact absurd hzero hAe
      · obtain ⟨p, hp⟩ : ∃ p, (appendedRows res db (b1 + 1)).getLast? = some p := by
          rcases he : (appendedRows res db (b1 + 1)).getLast? with _ | p
          · rw [List.getLast?_eq_none_iff] at he
            exact absurd he hAe
          · exact ⟨p, rfl⟩
        obtain ⟨A', hA'⟩ := List.getLast?_eq_some_iff.mp hp
        have hexp1rows : (slotLoop res
            (rowsFrom db.source (res.time_slot_increment (res.time_slot r0.timestamp) 1)) b1
            (res.time_slot_increment (res.time_slot r0.timestamp) 1) []).rows =
            A' ++ [p] := by
          rw [← hrows b1]
          exact hA'
        have hpmem : p ∈ (slotLoop res
            (rowsFrom db.source (res.time_slot_increment (res.time_slot r0.timestamp) 1)) b1
            (res.time_slot_increment (res.time_slot r0.timestamp) 1) []).rows := by
          rw [hexp1rows]
          exact List.mem_append.mpr (Or.inr (by simp))
        obtain ⟨hpal, hpc0, -⟩ := slotLoop_rows_mem res h _ b1 _ hc0al p hpmem
        have hc2al : res.aligned (res.time_slot_increment p.timestamp 1) :=
          h.incr_aligned _ 1 hpal
        have hc0c2 : res.time_slot_increment (res.time_slot r0.timestamp) 1 ≤
            res.time_slot_increment p.timestamp 1 := by
          have := h.incr_gt p.timestamp 1 (by omega)
          omega
        have hW2 : ∀ r ∈ db.source, r.timestamp <
            res.time_slot_increment (res.time_slot_increment p.timestamp 1) 2000 := by
          intro r hr
          have h1 := hW r hr
          have h2 := h.incr_mono _ _ 2000 hc0c2
          omega
        have hdbt : (applyAgg res db (b1 + 1)).target = A' ++ [p] := by
          rw [applyAgg_target, htarget, hA']
          simp
        have hla2 : getLastAggregateTimestamp res (applyAgg res db (b1 + 1)) =
            some p.timestamp := by
          unfold getLastAggregateTimestamp
          rw [hdbt, List.getLast?_concat]
        have hl2 : (applyAgg res db (b1 + 1)).source.getLast? = some sigma := hl
        rcases b3 with _ | b3'
        · rw [runExpired_zero_budget res _ sigma p.timestamp hl2 hla2] at hb3
          simp at hb3
        · by_cases hB2 : rowsFrom db.source (res.time_slot_increment p.timestamp 1) = []
          · have hQ : appendedRows res (applyAgg res db (b1 + 1)) (b3' + 1) = [] := by
              unfold appendedRows
              rw [processAggregation_err_char res _ (b3' + 1) sigma p.timestamp _ hl2 hla2
                (getSourceData_single_window_err res db.source sigma.timestamp b3' _ hW2 hB2)]
            have htriv : (slotLoop res
                (rowsFrom db.source (res.time_slot_increment p.timestamp 1)) 0
                (res.time_slot_increment p.timestamp 1) []).expired = false := by
              rw [hB2]
              rfl
            have hkey := slotLoop_two_runs res h db.source hsorted _ hc0al b1 b2' 0
              hexp2 A' p hexp1rows htriv
            rw [hB2] at hkey
            have hkey2 : (A' ++ [p]) ++ ([] : List AggRow) =
                (slotLoop res (rowsFrom db.source
                  (res.time_slot_increment (res.time_slot r0.timestamp) 1)) b2'
                  (res.time_slot_increment (res.time_slot r0.timestamp) 1) []).rows := hkey
            rw [List.append_nil] at hkey2
            refine DB_ext _ _ rfl ?_
            rw [applyAgg_target, hdbt, hQ, applyAgg_target, htarget, hrows b2',
              List.append_nil, List.nil_append]
            exact hkey2
          · have hscan2 : getSourceData res db.source sigma.timestamp (b3' + 1)
                (res.time_slot_increment p.timestamp 1) [] =
                .ok (rowsFrom db.source (res.time_slot_increment p.timestamp 1),
                  b3', false) :=
              getSourceData_single_window_ok res db.source hsorted sigma hl b3' _ hW2 hB2
            have hQ : appendedRows res (applyAgg res db (b1 + 1)) (b3' + 1) =
                (slotLoop res (rowsFrom db.source (res.time_slot_increment p.timestamp 1))
                  b3' (res.time_slot_increment p.timestamp 1) []).rows := by
              unfold appendedRows
              rw [processAggregation_ok_char res _ (b3' + 1) sigma p.timestamp _ b3' false
                hl2 hla2 hscan2]
            have hexp3 : (slotLoop res
                (rowsFrom db.source (res.time_slot_increment p.timestamp 1)) b3'
                (res.time_slot_increment p.timestamp 1) []).expired = false := by
              have hch : runExpired res (applyAgg res db (b1 + 1)) (b3' + 1) =
                  (slotLoop res (rowsFrom db.source (res.time_slot_increment p.timestamp 1))
                    b3' (res.time_slot_increment p.timestamp 1) []).expired := by
                unfold runExpired
                rw [processAggregation_ok_char res _ (b3' + 1) sigma p.timestamp _ b3' false
                  hl2 hla2 hscan2]
                simp
              rw [← hch]
              exact hb3
            have hkey := slotLoop_two_runs res h db.source hsorted _ hc0al b1 b2' b3'
              hexp2 A' p hexp1rows hexp3
            refine DB_ext _ _ rfl ?_
            rw [applyAgg_target, hdbt, hQ, applyAgg_target, htarget, hrows b2',
              List.nil_append]
            exact hkey

set_option maxRecDepth 150000 in
/-- C6 counterexample: source rows at `0, 300, 600, 900` and at `600400`
(inside the second call's shifted window but outside the first call's),
empty target.  A single unexpired run appends the rows for slots `300`
and `600`.  Running first with budget 2 (the deadline genuinely expires
after slot `300`) and then with an unexpired deadline appends `300`,
then `600` and `900`: the two-run final table differs from the
single-run table. -/
theorem c6_counterexample :
    runExpired fiveMinuteRes
      ⟨[⟨0, 1, 1, 1⟩, ⟨300, 1, 1, 1⟩, ⟨600, 1, 1, 1⟩, ⟨900, 1, 1, 1⟩,
        ⟨600400, 1, 1, 1⟩], []⟩ 10 = false ∧
    runExpired fiveMinuteRes
      ⟨[⟨0, 1, 1, 1⟩, ⟨300, 1, 1, 1⟩, ⟨600, 1, 1, 1⟩, ⟨900, 1, 1, 1⟩,
        ⟨600400, 1, 1, 1⟩], []⟩ 2 = true ∧
    runExpired fiveMinuteRes
      (applyAgg fiveMinuteRes
        ⟨[⟨0, 1, 1, 1⟩, ⟨300, 1, 1, 1⟩, ⟨600, 1, 1, 1⟩, ⟨900, 1, 1, 1⟩,
          ⟨600400, 1, 1, 1⟩], []⟩ 2) 10 = false ∧
    (applyAgg fiveMinuteRes
      ⟨[⟨0, 1, 1, 1⟩, ⟨300, 1, 1, 1⟩, ⟨600, 1, 1, 1⟩, ⟨900, 1, 1, 1⟩,
        ⟨600400, 1, 1, 1⟩], []⟩ 10).target =
      [⟨300, 1, 1, 1⟩, ⟨600, 1, 1, 1⟩] ∧
    (applyAgg fiveMinuteRes
      (applyAgg fiveMinuteRes
        ⟨[⟨0, 1, 1, 1⟩, ⟨300, 1, 1, 1⟩, ⟨600, 1, 1, 1⟩, ⟨900, 1, 1, 1⟩,
          ⟨600400, 1, 1, 1⟩], []⟩ 2) 10).target =
      [⟨300, 1, 1, 1⟩, ⟨600, 1, 1, 1⟩, ⟨900, 1, 1, 1⟩] ∧
    applyAgg fiveMinuteRes
      (applyAgg fiveMinuteRes
        ⟨[⟨0, 1, 1, 1⟩, ⟨300, 1, 1, 1⟩, ⟨600, 1, 1, 1⟩, ⟨900, 1, 1, 1⟩,
          ⟨600400, 1, 1, 1⟩], []⟩ 2) 10 ≠
      applyAgg fiveMinuteRes
        ⟨[⟨0, 1, 1, 1⟩, ⟨300, 1, 1, 1⟩, ⟨600, 1, 1, 1⟩, ⟨900, 1, 1, 1⟩,
          ⟨600400, 1, 1, 1⟩], []⟩ 10 := by
  have h4 : (applyAgg fiveMinuteRes
      ⟨[⟨0, 1, 1, 1⟩, ⟨300, 1, 1, 1⟩, ⟨600, 1, 1, 1⟩, ⟨900, 1, 1, 1⟩,
        ⟨600400, 1, 1, 1⟩], []⟩ 10).target =
      [⟨300, 1, 1, 1⟩, ⟨600, 1, 1, 1⟩] := by
    with_unfolding_all decide
  have h5 : (applyAgg fiveMinuteRes
      (applyAgg fiveMinuteRes
        ⟨[⟨0, 1, 1, 1⟩, ⟨300, 1, 1, 1⟩, ⟨600, 1, 1, 1⟩, ⟨900, 1, 1, 1⟩,
          ⟨600400, 1, 1, 1⟩], []⟩ 2) 10).target =
      [⟨300, 1, 1, 1⟩, ⟨600, 1, 1, 1⟩, ⟨900, 1, 1, 1⟩] := by
    with_unfolding_all decide
  refine ⟨by with_unfolding_all decide, by with_unfolding_all decide,
    by with_unfolding_all decide, h4, h5, ?_⟩
  intro heq
  rw [heq, h4] at h5
  simp at h5

set_option maxRecDepth 150000 in
/-- Witness for the amended C6: three rows inside the bootstrap window;
an interrupted run (budget 2) resumed with an unexpired deadline equals
one unexpired run. -/
theorem c6_resume_single_window_witness :
    runExpired fiveMinuteRes ⟨[⟨0, 1, 1, 1⟩, ⟨300, 1, 1, 1⟩, ⟨600, 1, 1, 1⟩], []⟩ 10
      = false ∧
    runExpired fiveMinuteRes
      (applyAgg fiveMinuteRes ⟨[⟨0, 1, 1, 1⟩, ⟨300, 1, 1, 1⟩, ⟨600, 1, 1, 1⟩], []⟩ 2) 10
      = false ∧
    applyAgg fiveMinuteRes
        (applyAgg fiveMinuteRes ⟨[⟨0, 1, 1, 1⟩, ⟨300, 1, 1, 1⟩, ⟨600, 1, 1, 1⟩], []⟩ 2)
        10 =
      applyAgg fiveMinuteRes ⟨[⟨0, 1, 1, 1⟩, ⟨300, 1, 1, 1⟩, ⟨600, 1, 1, 1⟩], []⟩ 10 :=
  ⟨by with_unfolding_all decide, by with_unfolding_all decide,
   c6_resume_single_window fiveMinuteRes goodFiveMinute
     ⟨[⟨0, 1, 1, 1⟩, ⟨300, 1, 1, 1⟩, ⟨600, 1, 1, 1⟩], []⟩ 2 10 10
     (by unfold srcSorted; simp) rfl ⟨0, 1, 1, 1⟩ [⟨300, 1, 1, 1⟩, ⟨600, 1, 1, 1⟩] rfl
     (by decide) (by with_unfolding_all decide) (by with_unfolding_all decide)⟩
